import Mathlib

/-!
# Verification of `gethighs` (HiGHS file-based solver driver)

Shallow embedding of `src/gethighs/solver.py`. File contents are modelled as
lists of characters (`Str`), numeric values as exact rationals (`ℚ`), and the
stateful decoding loop of `HiGHS._read_values_from_sol` as a step function over
an explicit decoder state, with a dedicated outcome constructor for the inner
`while` loop that can never terminate and outcome constructors for the Python
exceptions that can escape (`IndexError`, `ValueError`, `SystemError`).

Python `float` values are embedded as rationals; every IEEE double is a
rational whose denominator divides a power of ten, so the f-string rendering
`f"{value}"` is embedded as the exact positional decimal expansion of the
value (`pyStr`), and `float(text)` as an exact decimal parser (`parseFloat`).
Python's `round(x, n)` (round-half-to-even at `n` decimal places) is embedded
exactly over ℚ (`pyRound`), and `math.floor(np.log10 q)` as the exact integer
floor-logarithm (`intLog10`, characterised by `intLog10_zpow_le` /
`intLog10_lt_zpow` below).
-/

namespace GetHighs

/-- File contents and tokens: Python strings as lists of characters. -/
abbrev Str := List Char

/-- Embed a Lean string literal as a `Str`. -/
def str (s : String) : Str := s.data

/-! ## Character classes and digits -/

/-- Whitespace characters stripped by Python `float()`. -/
def isWS (c : Char) : Bool := c = ' ' || c = '\n' || c = '\t' || c = '\r'

/-- Decimal digit characters `'0'`–`'9'`. -/
def isDigitCh (c : Char) : Bool := 48 ≤ c.toNat && c.toNat ≤ 57

/-- Numeric value of a digit character. -/
def charDigit (c : Char) : ℕ := c.toNat - 48

/-- Digit character of a value `< 10`. -/
def digitChar (d : ℕ) : Char := Char.ofNat (48 + d)

/-- Value of a little-endian digit list (least significant first). -/
def valLE : List ℕ → ℕ
  | [] => 0
  | d :: ds => d + 10 * valLE ds

/-- Value of a big-endian digit string (most significant character first). -/
def valBE (s : Str) : ℕ := valLE ((s.map charDigit).reverse)

/-- Little-endian base-10 digits of `n`, by fuelled division (fuel `≥ n`
suffices; the entry point `natDigitsLE` uses `n` itself as fuel). -/
def digAux : ℕ → ℕ → List ℕ
  | 0, _ => []
  | f + 1, n => if n = 0 then [] else n % 10 :: digAux f (n / 10)

/-- Little-endian base-10 digits of `n` (empty for `0`). -/
def natDigitsLE (n : ℕ) : List ℕ := digAux n n

/-- Big-endian decimal rendering of a natural number (`"0"` for `0`). -/
def natDigits (n : ℕ) : Str :=
  if n = 0 then ['0'] else ((natDigitsLE n).map digitChar).reverse

/-- Big-endian decimal rendering of `n` padded with leading zeros to exactly
`k` digits (`"0"` when `k = 0`); used for fractional parts. -/
def natDigitsPad (n k : ℕ) : Str :=
  if k = 0 then ['0']
  else ((natDigitsLE n ++ List.replicate (k - (natDigitsLE n).length) 0).map
    digitChar).reverse

/-! ## Exact decimal serialization of rationals (model of `f"{value}"`) -/

/-- Multiplicity of `p` in `n`, by fuelled division. -/
def vpAux (p : ℕ) : ℕ → ℕ → ℕ
  | 0, _ => 0
  | f + 1, n => if n % p = 0 ∧ 0 < n then vpAux p f (n / p) + 1 else 0

/-- Exponent `k` such that `d ∣ 10 ^ k` whenever `d` has only the prime
factors 2 and 5 (the denominators realisable by binary floats). -/
def decExp (d : ℕ) : ℕ := max (vpAux 2 d d) (vpAux 5 d d)

/-- A rational representable as a finite decimal (every Python float is). -/
def FloatLike (q : ℚ) : Prop := q.den ∣ 10 ^ decExp q.den

instance (q : ℚ) : Decidable (FloatLike q) :=
  inferInstanceAs (Decidable (_ ∣ _))

/-- Exact decimal rendering of a `FloatLike` rational: the model of Python's
`f"{value}"` on a float (sign, integer part, `'.'`, fractional part). -/
def pyStr (q : ℚ) : Str :=
  let k := decExp q.den
  let m := q.num.natAbs * (10 ^ k / q.den)
  (if q.num < 0 then ['-'] else []) ++
    natDigits (m / 10 ^ k) ++ ['.'] ++ natDigitsPad (m % 10 ^ k) k

/-! ## Decimal parsing (model of Python `float(text)`) -/

/-- Strip leading and trailing whitespace, as Python `float()` does. -/
def stripWS (s : Str) : Str :=
  ((s.dropWhile isWS).reverse.dropWhile isWS).reverse

/-- Parse an unsigned decimal: digits, optionally around a single `'.'`.
(The scientific notation and `inf`/`nan` forms accepted by Python `float()`
are not needed for any value this program serialises.) -/
def parseUnsigned (s : Str) : Option ℚ :=
  let ip := s.takeWhile (fun c => !(c = '.'))
  let rest := s.dropWhile (fun c => !(c = '.'))
  match rest with
  | [] => if ip ≠ [] ∧ ip.all isDigitCh then some (valBE ip) else none
  | _ :: fp =>
      if (ip ≠ [] ∨ fp ≠ []) ∧ ip.all isDigitCh ∧ fp.all isDigitCh ∧
          '.' ∉ fp then
        some ((valBE ip : ℚ) + (valBE fp : ℚ) / 10 ^ fp.length)
      else none

/-- Model of Python `float(text)`: `none` models raising `ValueError`. -/
def parseFloat (s : Str) : Option ℚ :=
  match stripWS s with
  | [] => none
  | c :: r =>
      if c = '-' then (parseUnsigned r).map (fun q => -q)
      else if c = '+' then parseUnsigned r
      else parseUnsigned (c :: r)

/-! ## Rounding and magnitude-adaptive truncation -/

/-- Python's `round(x, n)`: round `x` to `n` decimal places, ties to even. -/
def pyRound (x : ℚ) (n : ℤ) : ℚ :=
  let s := x * 10 ^ n
  let f : ℤ := ⌊s⌋
  let r : ℤ :=
    if s - f < 1 / 2 then f
    else if 1 / 2 < s - f then f + 1
    else if Even f then f else f + 1
  (r : ℚ) / 10 ^ n

/-- Fuelled `Nat.log 10` (floor log; fuel `≥ n` suffices). -/
def nlogAux : ℕ → ℕ → ℕ
  | 0, _ => 0
  | f + 1, n => if 10 ≤ n then nlogAux f (n / 10) + 1 else 0

/-- Fuelled `Nat.clog 10` (ceiling log; fuel `≥ n` suffices). -/
def nclogAux : ℕ → ℕ → ℕ
  | 0, _ => 0
  | f + 1, n => if 2 ≤ n then nclogAux f ((n + 9) / 10) + 1 else 0

/-- `⌊log10 q⌋` for a positive rational, computed exactly: the model of
`math.floor(np.log10(q))`.  Characterised by `intLog10_zpow_le` and
`intLog10_lt_zpow`. -/
def intLog10 (q : ℚ) : ℤ :=
  if 1 ≤ q then (nlogAux ⌊q⌋.toNat ⌊q⌋.toNat : ℤ)
  else -(nclogAux ⌈q⁻¹⌉.toNat ⌈q⁻¹⌉.toNat : ℤ)

/-- `truncate(x, precision)` from `solver.py`:
`base = math.floor(np.log10(abs(x) + 10**(-precision)))`,
`digits = max(precision - base, 1)`, `round(x, digits)`.
The result is `none` exactly when the argument of the logarithm is not
positive, which models `np.log10` producing `-inf` (and `math.floor` then
raising `OverflowError`); the offset makes this unreachable. -/
def truncate (x : ℚ) (precision : ℕ) : Option ℚ :=
  let a := |x| + 10 ^ (-(precision : ℤ))
  if 0 < a then
    some (pyRound x (max ((precision : ℤ) - intLog10 a) 1))
  else none

/-- The §4.3 normalisation formula, written from the spec's words:
Step 1 round to `R` decimal places; Step 2 `base = floor(log10(|value| +
10^-P))`; Step 3 `digits = max(P - base, 1)`; Step 4 round the Step-1 result
to `digits` decimal places. -/
def normalize_spec (V : ℚ) (R P : ℕ) : ℚ :=
  let step1 := pyRound V (R : ℤ)
  let base := intLog10 (|step1| + 10 ^ (-(P : ℤ)))
  let digits := max ((P : ℤ) - base) 1
  pyRound step1 digits

/-! ## Line handling -/

/-- Python `readlines`: split a file's content into lines, each keeping its
trailing `'\n'`; a final fragment without `'\n'` is also a line. -/
def splitLinesAux : Str → Str → List Str
  | [], acc => if acc = [] then [] else [acc.reverse]
  | c :: rest, acc =>
      if c = '\n' then (acc.reverse ++ ['\n']) :: splitLinesAux rest []
      else splitLinesAux rest (c :: acc)

/-- Lines of a file content (model of `file.readlines()`). -/
def splitLines (s : Str) : List Str := splitLinesAux s []

/-- Python `line.rstrip("\n")`: drop all trailing newline characters. -/
def rstripNL (s : Str) : Str :=
  (s.reverse.dropWhile (fun c => c = '\n')).reverse

/-- Python `line.split(sep=" ", maxsplit=1)`: split at the first space (the
result has one element when there is no space, two otherwise; no collapsing
of repeated separators). -/
def split1 (s : Str) : List Str :=
  match s.dropWhile (fun c => !(c = ' ')) with
  | [] => [s.takeWhile (fun c => !(c = ' '))]
  | _ :: rest => [s.takeWhile (fun c => !(c = ' ')), rest]

/-! ## The symbol table -/

/-- A model entity bound to a symbol: whether `pyo.is_variable_type` holds of
it, and its current `.value` (`none` models Python `None`). -/
structure Entry where
  isVar : Bool
  value : Option ℚ
  deriving DecidableEq, Repr

/-- The caller's symbol table `self.all_symbols`: symbols in insertion order,
each bound to its entity. -/
abbrev SymTab := List (Str × Entry)

/-- Dictionary lookup on the symbol table. -/
def lookupS (s : Str) : SymTab → Option Entry
  | [] => none
  | (k, e) :: t => if k = s then some e else lookupS s t

/-- Keys of the symbol table. -/
def keysOf (tbl : SymTab) : List Str := tbl.map Prod.fst

/-! ## The solution decoder `_read_values_from_sol` -/

/-- The message of the structural decode error raised in `solver.py`. -/
def SOL_ERROR_MSG : Str :=
  str "HiGHS failed when writing the solution file - It is incomplete. Try setting a longer `sleep_time`. Insert a 'try-except' block and re-solve the problem"

/-- Python exceptions that can escape `_read_values_from_sol`. -/
inductive PyErr where
  | indexError : PyErr
  | valueError : PyErr
  | overflowError : PyErr
  | systemError : Str → PyErr
  deriving DecidableEq, Repr

/-- Decoder state: the local variables `status`, `primal_solutions`,
`objective`, plus the `.value` writes performed on symbol-table entities so
far (in order; Python mutates the entities as it goes). -/
structure DecState where
  status : Option Str
  primal : Option Str
  objective : Option ℚ
  assigns : List (Str × ℚ)
  deriving DecidableEq, Repr

/-- Outcome of the decoding loop: normal return, an escaped exception, or the
inner `while status is None and j <= 10` loop spinning forever (its condition
cannot change once entered with a line not containing `"Model status"`). The
carried state records the entity mutations already performed. -/
inductive DecOutcome where
  | ok : DecState → DecOutcome
  | err : PyErr → DecState → DecOutcome
  | hang : DecState → DecOutcome
  deriving DecidableEq, Repr

/-- The state carried by any outcome. -/
def outState : DecOutcome → DecState
  | .ok s => s
  | .err _ s => s
  | .hang s => s

/-- One-step result: continue the `for` loop with a new state, or stop with a
final outcome. -/
inductive StepRes where
  | cont : DecState → StepRes
  | stop : DecOutcome → StepRes
  deriving DecidableEq, Repr

/-- Python `splt[-1]`: the last token of a (non-empty) split result. -/
def lastTok : List Str → Str
  | [] => []
  | [a] => a
  | _ :: b :: r => lastTok (b :: r)

/-- The `"# Primal solution values"` arm of row processing: it consumes the
next two lines — the primal-count line `lines[j+1]`, then the objective line
`lines[j+2]`, split at the first space, whose last token's (`splt[-1]`) parse
failure is swallowed (`try/except (ValueError, TypeError): pass`), leaving
`objective` unchanged — and then `continue`s. -/
def procMarker (lines : List Str) (j : ℕ) (st : DecState) : StepRes :=
  match lines[j + 1]? with
  | none => .stop (.err .indexError st)
  | some l1 =>
      let st1 : DecState := { st with primal := some (rstripNL l1) }
      match lines[j + 2]? with
      | none => .stop (.err .indexError st1)
      | some l2 =>
          match parseFloat (lastTok (split1 (rstripNL l2))) with
          | some v => .cont { st1 with objective := some v }
          | none => .cont st1

/-- The non-marker arm of row processing: split the line at the first space;
when the head token `splt[0]` is a known decision-variable symbol, parse,
round and truncate the second token `splt[1]` and store the result.  The
out-of-range accesses `splt[0]` (first arm, unreachable since `split1` never
returns `[]`) and `splt[1]` (no value token) model Python `IndexError`.  Note
this arm reads neither `lines`, `j`, `status`, `primal` nor `objective`. -/
def procSym (tbl : SymTab) (R P : ℕ) (line : Str) (st : DecState) : StepRes :=
  match split1 line with
  | [] => .stop (.err .indexError st)
  | s0 :: rest =>
      match lookupS s0 tbl with
      | none => .cont st
      | some e =>
          if e.isVar then
            if 0 < (s0 :: rest).length then
              match rest with
              | [] => .stop (.err .indexError st)
              | tok :: _ =>
                  match parseFloat tok with
                  | none => .stop (.err .valueError st)
                  | some v =>
                      match truncate (pyRound v (R : ℤ)) P with
                      | none => .stop (.err .overflowError st)
                      | some tv =>
                          .cont { st with assigns := st.assigns ++ [(s0, tv)] }
            else .stop (.err (.systemError SOL_ERROR_MSG) st)
          else .cont st

/-- The `else` block of the `while` statement (solver.py lines 280–298): row
processing for one line, dispatching between the marker arm and the symbol
arm.  The branch `raise SystemError(SOL_ERROR_MSG)` of the symbol arm is
guarded by `len(splt) > 0`, faithfully kept in `procSym` even though `split1`
always returns a non-empty list. -/
def procRow (lines : List Str) (tbl : SymTab) (R P : ℕ) (j : ℕ) (line : Str)
    (st : DecState) : StepRes :=
  if str "# Primal solution values" <:+: line then procMarker lines j st
  else procSym tbl R P line st

/-- One iteration of `for j, line in enumerate(lines)`, including the
`while status is None and j <= 10` header loop: if the condition holds and the
line contains `"Model status"`, `status` is set from `lines[j+1]` and the
`while` exits normally into its `else` block (row processing); if the
condition holds and the marker is absent, nothing in the loop body can change
the condition, so the loop never terminates (`hang`).  When the condition is
false the `else` block runs directly. -/
def decodeStep (lines : List Str) (tbl : SymTab) (R P : ℕ) (j : ℕ)
    (line : Str) (st : DecState) : StepRes :=
  if st.status = none ∧ j ≤ 10 then
    if str "Model status" <:+: line then
      match lines[j + 1]? with
      | none => .stop (.err .indexError st)
      | some l1 =>
          procRow lines tbl R P j line { st with status := some (rstripNL l1) }
    else .stop (.hang st)
  else procRow lines tbl R P j line st

/-- Run the `for` loop over the remaining `(index, line)` pairs. -/
def runLines (lines : List Str) (tbl : SymTab) (R P : ℕ) :
    List (ℕ × Str) → DecState → DecOutcome
  | [], st => .ok st
  | (j, line) :: rest, st =>
      match decodeStep lines tbl R P j line st with
      | .cont st' => runLines lines tbl R P rest st'
      | .stop o => o

/-- `HiGHS._read_values_from_sol`, as a function of the solution file's lines,
the symbol table, `rounding_digits` and `truncate_precision`. -/
def read_values_from_sol (lines : List Str) (tbl : SymTab) (R P : ℕ) :
    DecOutcome :=
  runLines lines tbl R P lines.enum ⟨none, none, none, []⟩

/-! ## The completion check `_check_complete_sol` -/

/-- `HiGHS._check_complete_sol` applied to the file's content: the marker
`"# Basis\nHiGHS"` occurs as a substring (Python `in`) and the content ends
with `"\n"` (Python `endswith`, i.e. `"\n"` is a suffix). -/
def check_complete_sol (txt : Str) : Bool :=
  decide (str "# Basis\nHiGHS" <:+: txt) && decide (['\n'] <:+ txt)

/-! ## The warm-start writer `_write_warmstartfile` -/

/-- `HiGHS.n_var`: the number of symbols bound to decision variables. -/
def n_var (tbl : SymTab) : ℕ := (tbl.filter (fun p => p.2.isVar)).length

/-- The chunk written for one symbol-table item: decision variables get one
row, `"<key> 0.0\n"` when unassigned and `"<key> <value>\n"` otherwise (raw
value, no rounding); other entities are skipped. -/
def rowChunk (p : Str × Entry) : Str :=
  if p.2.isVar then
    match p.2.value with
    | none => p.1 ++ str " 0.0\n"
    | some v => p.1 ++ str " " ++ pyStr v ++ str "\n"
  else []

/-- `HiGHS._write_warmstartfile`: the file content produced by the sequence of
`file.write` calls in `solver.py` lines 305–318. -/
def write_warmstartfile (tbl : SymTab) : Str :=
  str "Model status\n" ++ str "Unknown\n\n" ++
    str "# Primal solution values\n" ++ str "Unknown\n" ++
    str "Objective Unknown\n" ++
    (str "# Columns " ++ natDigits (n_var tbl) ++ str "\n") ++
    (tbl.map rowChunk).flatten

/-- The row line the spec's §4.4 wording prescribes for one symbol-table
item: `<symbol> 0.0` when the decision variable is unassigned, else
`<symbol> <value>` with the raw current value; no line for non-variables. -/
def warmRowLine (p : Str × Entry) : Option Str :=
  if p.2.isVar then
    some (p.1 ++ [' '] ++
      (match p.2.value with
        | none => str "0.0"
        | some v => pyStr v) ++ ['\n'])
  else none

/-- The warm-start file as the spec's §4.4 wording describes it, line by line:
the fixed placeholder header (`Model status` / `Unknown` / blank / `# Primal
solution values` / `Unknown` / `Objective Unknown` / `# Columns <N>`), then
one row per decision-variable symbol in table order. -/
def warmstartLines_spec (tbl : SymTab) : List Str :=
  [str "Model status\n", str "Unknown\n", str "\n",
    str "# Primal solution values\n", str "Unknown\n",
    str "Objective Unknown\n",
    str "# Columns " ++ natDigits (n_var tbl) ++ str "\n"] ++
  tbl.filterMap warmRowLine

/-! ## The command line (`_cmd_timelim` and `solve`) -/

/-- The `time_limit` attribute: `None`, a number, or a string. -/
inductive TimeLimit where
  | none : TimeLimit
  | num : ℚ → TimeLimit
  | strv : Str → TimeLimit
  deriving DecidableEq

/-- Python truthiness of `self.time_limit` (`if self.time_limit:`). -/
def tlTruthy : TimeLimit → Bool
  | .none => false
  | .num q => decide (q ≠ 0)
  | .strv s => decide (s ≠ [])

/-- Rendering of the time limit inside the f-string. -/
def tlStr : TimeLimit → Str
  | .none => str "None"
  | .num q => pyStr q
  | .strv s => s

/-- `HiGHS._cmd_timelim`: the time-limit fragment of the command line. -/
def cmd_timelim (tl : TimeLimit) : Str :=
  if tlTruthy tl then str " --time_limit " ++ tlStr tl else []

/-- The command line assembled in `solve` (solver.py lines 211–212). -/
def cmdLine (exe : Str) (tl : TimeLimit) (solfile rsf optionsfile
    modelfile : Str) : Str :=
  exe ++ str " " ++ cmd_timelim tl ++ str " --solution_file " ++ solfile ++
    str " " ++ rsf ++ str "--options_file " ++ optionsfile ++ str " " ++
    modelfile

/-! ## Basic lemmas -/

/-- `split1` never returns the empty list. -/
lemma split1_ne_nil (s : Str) : split1 s ≠ [] := by
  unfold split1
  cases s.dropWhile (fun c => !(c = ' ')) <;> simp

/-- `split1` always returns a list of positive length. -/
lemma split1_length_pos (s : Str) : 0 < (split1 s).length := by
  cases h : split1 s with
  | nil => exact absurd h (split1_ne_nil s)
  | cons a t => simp

/-- A successful symbol-table lookup means the key is in the table. -/
lemma lookupS_mem {s : Str} {tbl : SymTab} {e : Entry}
    (h : lookupS s tbl = some e) : s ∈ keysOf tbl := by
  induction tbl with
  | nil => exact absurd h (by simp [lookupS])
  | cons p t ih =>
      obtain ⟨k, e'⟩ := p
      by_cases hk : k = s
      · subst hk
        exact List.mem_cons_self _ _
      · have h' : lookupS s t = some e := by
          simpa [lookupS, hk] using h
        exact List.mem_cons_of_mem _ (ih h')

/-- `procMarker` never stops with a `SystemError`. -/
lemma procMarker_ne_systemError (lines : List Str) (j : ℕ) (st : DecState)
    (m : Str) (st' : DecState) :
    procMarker lines j st ≠ .stop (.err (.systemError m) st') := by
  cases h1 : lines[j + 1]? with
  | none => simp [procMarker, h1]
  | some l1 =>
      cases h2 : lines[j + 2]? with
      | none => simp [procMarker, h1, h2]
      | some l2 =>
          cases hp : parseFloat (lastTok (split1 (rstripNL l2))) <;>
            simp [procMarker, h1, h2, hp]

/-- `procSym` never stops with a `SystemError`: the guard `len(splt) > 0`
in `solver.py` is always true, so the `raise SystemError(SOL_ERROR_MSG)`
branch is unreachable. -/
lemma procSym_ne_systemError (tbl : SymTab) (R P : ℕ) (line : Str)
    (st : DecState) (m : Str) (st' : DecState) :
    procSym tbl R P line st ≠ .stop (.err (.systemError m) st') := by
  cases hsp : split1 line with
  | nil => simp [procSym, hsp]
  | cons s0 rest =>
      cases hl : lookupS s0 tbl with
      | none => simp [procSym, hsp, hl]
      | some e =>
          by_cases hv : e.isVar
          · cases rest with
            | nil => simp [procSym, hsp, hl, hv]
            | cons tok more =>
                cases hp : parseFloat tok with
                | none => simp [procSym, hsp, hl, hv, hp]
                | some v =>
                    cases htr : truncate (pyRound v (R : ℤ)) P <;>
                      simp [procSym, hsp, hl, hv, hp, htr]
          · simp [procSym, hsp, hl, hv]

/-- `procRow` never stops with a `SystemError`. -/
lemma procRow_ne_systemError (lines : List Str) (tbl : SymTab) (R P : ℕ)
    (j : ℕ) (line : Str) (st : DecState) (m : Str) (st' : DecState) :
    procRow lines tbl R P j line st ≠ .stop (.err (.systemError m) st') := by
  unfold procRow
  split
  · apply procMarker_ne_systemError
  · apply procSym_ne_systemError

/-- `decodeStep` never stops with a `SystemError`. -/
lemma decodeStep_ne_systemError (lines : List Str) (tbl : SymTab) (R P : ℕ)
    (j : ℕ) (line : Str) (st : DecState) (m : Str) (st' : DecState) :
    decodeStep lines tbl R P j line st ≠ .stop (.err (.systemError m) st') := by
  unfold decodeStep
  split
  · split
    · cases lines[j + 1]? with
      | none => simp
      | some l1 =>
          simp only
          apply procRow_ne_systemError
    · simp
  · apply procRow_ne_systemError

/-- The whole decoding loop never raises `SystemError`. -/
lemma runLines_ne_systemError (lines : List Str) (tbl : SymTab) (R P : ℕ)
    (pairs : List (ℕ × Str)) (st : DecState) (m : Str) (st' : DecState) :
    runLines lines tbl R P pairs st ≠ .err (.systemError m) st' := by
  induction pairs generalizing st with
  | nil => simp [runLines]
  | cons p rest ih =>
      obtain ⟨j, line⟩ := p
      unfold runLines
      cases hs : decodeStep lines tbl R P j line st with
      | cont st1 => exact ih st1
      | stop o =>
          intro ho
          subst ho
          exact decodeStep_ne_systemError lines tbl R P j line st m st' hs

/-- Splitting a non-empty content (or with pending accumulator) gives at
least one line. -/
lemma splitLinesAux_ne_nil (s : Str) (acc : Str) (h : s ≠ [] ∨ acc ≠ []) :
    splitLinesAux s acc ≠ [] := by
  induction s generalizing acc with
  | nil =>
      rcases h with h | h
      · exact absurd rfl h
      · simp [splitLinesAux, h]
  | cons c rest ih =>
      by_cases hc : c = '\n'
      · simp [splitLinesAux, hc]
      · simp only [splitLinesAux, if_neg hc]
        exact ih (c :: acc) (Or.inr (by simp))

/-- A non-empty file has at least one line. -/
lemma splitLines_ne_nil {s : Str} (h : s ≠ []) : splitLines s ≠ [] :=
  splitLinesAux_ne_nil s [] (Or.inl h)

/-- The state a step leaves behind (whether continuing or stopping). -/
def stepState : StepRes → DecState
  | .cont s => s
  | .stop o => outState o

/-- `procMarker` never changes the assignment list. -/
lemma procMarker_assigns (lines : List Str) (j : ℕ) (st : DecState) :
    (stepState (procMarker lines j st)).assigns = st.assigns := by
  cases h1 : lines[j + 1]? with
  | none => simp [procMarker, h1, stepState, outState]
  | some l1 =>
      cases h2 : lines[j + 2]? with
      | none => simp [procMarker, h1, h2, stepState, outState]
      | some l2 =>
          cases hp : parseFloat (lastTok (split1 (rstripNL l2))) <;>
            simp [procMarker, h1, h2, hp, stepState]

/-- `procSym` either leaves the assignment list unchanged or appends one
pair whose key is a key of the symbol table. -/
lemma procSym_assigns (tbl : SymTab) (R P : ℕ) (line : Str) (st : DecState) :
    (stepState (procSym tbl R P line st)).assigns = st.assigns ∨
    ∃ s0 tv, s0 ∈ keysOf tbl ∧
      (stepState (procSym tbl R P line st)).assigns =
        st.assigns ++ [(s0, tv)] := by
  cases hsp : split1 line with
  | nil => left; simp [procSym, hsp, stepState, outState]
  | cons s0 rest =>
      cases hl : lookupS s0 tbl with
      | none => left; simp [procSym, hsp, hl, stepState]
      | some e =>
          by_cases hv : e.isVar
          · cases rest with
            | nil => left; simp [procSym, hsp, hl, hv, stepState, outState]
            | cons tok more =>
                cases hp : parseFloat tok with
                | none =>
                    left; simp [procSym, hsp, hl, hv, hp, stepState, outState]
                | some v =>
                    cases htr : truncate (pyRound v (R : ℤ)) P with
                    | none =>
                        left
                        simp [procSym, hsp, hl, hv, hp, htr, stepState,
                          outState]
                    | some tv =>
                        right
                        refine ⟨s0, tv, lookupS_mem hl, ?_⟩
                        simp [procSym, hsp, hl, hv, hp, htr, stepState]
          · left; simp [procSym, hsp, hl, hv, stepState]

/-- Every key assigned by a step either was already assigned or is a key of
the symbol table. -/
lemma stepState_assigns_decodeStep (lines : List Str) (tbl : SymTab)
    (R P : ℕ) (j : ℕ) (line : Str) (st : DecState) (kv : Str × ℚ)
    (hkv : kv ∈ (stepState (decodeStep lines tbl R P j line st)).assigns) :
    kv ∈ st.assigns ∨ kv.1 ∈ keysOf tbl := by
  have hrow : ∀ st0 : DecState, st0.assigns = st.assigns →
      kv ∈ (stepState (procRow lines tbl R P j line st0)).assigns →
      kv ∈ st.assigns ∨ kv.1 ∈ keysOf tbl := by
    intro st0 heq h
    unfold procRow at h
    split at h
    · rw [procMarker_assigns, heq] at h
      exact Or.inl h
    · rcases procSym_assigns tbl R P line st0 with hs | ⟨s0, tv, hmem, hs⟩
      · rw [hs, heq] at h
        exact Or.inl h
      · rw [hs, heq] at h
        rcases List.mem_append.mp h with h | h
        · exact Or.inl h
        · rcases List.mem_singleton.mp h with rfl
          exact Or.inr hmem
  unfold decodeStep at hkv
  split at hkv
  · split at hkv
    · cases h1 : lines[j + 1]? with
      | none =>
          rw [h1] at hkv
          simp [stepState, outState] at hkv
          exact Or.inl hkv
      | some l1 =>
          rw [h1] at hkv
          exact hrow { st with status := some (rstripNL l1) } rfl
            (by simpa using hkv)
    · simp [stepState, outState] at hkv
      exact Or.inl hkv
  · exact hrow st rfl hkv

/-- Running the loop preserves the invariant that every assigned key is a
table key. -/
lemma runLines_assigns_subset (lines : List Str) (tbl : SymTab) (R P : ℕ)
    (pairs : List (ℕ × Str)) (st : DecState)
    (hst : ∀ kv ∈ st.assigns, kv.1 ∈ keysOf tbl) :
    ∀ kv ∈ (outState (runLines lines tbl R P pairs st)).assigns,
      kv.1 ∈ keysOf tbl := by
  induction pairs generalizing st with
  | nil => simpa [runLines, outState] using hst
  | cons p rest ih =>
      obtain ⟨j, line⟩ := p
      intro kv hkv
      unfold runLines at hkv
      cases hs : decodeStep lines tbl R P j line st with
      | cont st1 =>
          rw [hs] at hkv
          refine ih st1 ?_ kv hkv
          intro kv' hkv'
          have : kv' ∈ (stepState (decodeStep lines tbl R P j line st)).assigns := by
            rw [hs]; exact hkv'
          rcases stepState_assigns_decodeStep lines tbl R P j line st kv' this
            with h | h
          · exact hst kv' h
          · exact h
      | stop o =>
          rw [hs] at hkv
          have : kv ∈ (stepState (decodeStep lines tbl R P j line st)).assigns := by
            rw [hs]; exact hkv
          rcases stepState_assigns_decodeStep lines tbl R P j line st kv this
            with h | h
          · exact hst kv h
          · exact h

/-- `takeWhile` passes over a prefix on which the predicate holds. -/
lemma takeWhile_append_all {p : Char → Bool} (l r : Str)
    (h : ∀ c ∈ l, p c = true) :
    (l ++ r).takeWhile p = l ++ r.takeWhile p := by
  induction l with
  | nil => simp
  | cons c cs ih =>
      have hc : p c = true := h c (List.mem_cons_self _ _)
      simp only [List.cons_append, List.takeWhile_cons, hc, if_true]
      rw [ih (fun c hc => h c (List.mem_cons_of_mem _ hc))]

/-- `dropWhile` drops a prefix on which the predicate holds. -/
lemma dropWhile_append_all {p : Char → Bool} (l r : Str)
    (h : ∀ c ∈ l, p c = true) :
    (l ++ r).dropWhile p = r.dropWhile p := by
  induction l with
  | nil => simp
  | cons c cs ih =>
      have hc : p c = true := h c (List.mem_cons_self _ _)
      simp only [List.cons_append, List.dropWhile_cons, hc, if_true]
      exact ih (fun c hc => h c (List.mem_cons_of_mem _ hc))

/-- Splitting a line `s ++ " " ++ t` whose symbol part has no space gives
exactly the two tokens `s` and `t`. -/
lemma split1_space (s t : Str) (hs : ' ' ∉ s) :
    split1 (s ++ ' ' :: t) = [s, t] := by
  have hall : ∀ c ∈ s, (!(c = ' ')) = true := by
    intro c hc
    simp only [Bool.not_eq_true']
    exact decide_eq_false (fun he => hs (he ▸ hc))
  unfold split1
  rw [dropWhile_append_all _ _ hall, takeWhile_append_all _ _ hall]
  simp [List.dropWhile_cons, List.takeWhile_cons]

/-- `truncate` always succeeds, with the value given by its formula. -/
lemma truncate_eq (x : ℚ) (P : ℕ) :
    truncate x P =
      some (pyRound x
        (max ((P : ℤ) - intLog10 (|x| + 10 ^ (-(P : ℤ)))) 1)) := by
  unfold truncate
  rw [if_pos (by positivity)]

/-- The code's chain `truncate(round(V, R), P)` equals the spec's §4.3
`normalize` formula. -/
lemma truncate_pyRound_eq_normalize (V : ℚ) (R P : ℕ) :
    truncate (pyRound V (R : ℤ)) P = some (normalize_spec V R P) := by
  rw [truncate_eq]
  rfl

/-! ## Objective-leniency machinery (C5) -/

/-- Forget the `objective` field of a decoder state. -/
def eraseObj (st : DecState) : DecState := { st with objective := none }

/-- Forget the `objective` field of an outcome's state. -/
def setObjNone : DecOutcome → DecOutcome
  | .ok s => .ok (eraseObj s)
  | .err e s => .err e (eraseObj s)
  | .hang s => .hang (eraseObj s)

/-- Forget the `objective` field of a step result. -/
def eraseObjRes : StepRes → StepRes
  | .cont s => .cont (eraseObj s)
  | .stop o => .stop (setObjNone o)

lemma eraseObj_status (st : DecState) : (eraseObj st).status = st.status := rfl

/-- `procSym` never reads the `objective` field. -/
lemma procSym_eraseObj (tbl : SymTab) (R P : ℕ) (line : Str)
    (st : DecState) :
    procSym tbl R P line (eraseObj st) = eraseObjRes (procSym tbl R P line st) := by
  cases hsp : split1 line with
  | nil => simp [procSym, hsp, eraseObjRes, setObjNone, eraseObj]
  | cons s0 rest =>
      cases hl : lookupS s0 tbl with
      | none => simp [procSym, hsp, hl, eraseObjRes]
      | some e =>
          by_cases hv : e.isVar
          · cases rest with
            | nil => simp [procSym, hsp, hl, hv, eraseObjRes, setObjNone]
            | cons tok more =>
                cases hp : parseFloat tok with
                | none =>
                    simp [procSym, hsp, hl, hv, hp, eraseObjRes, setObjNone]
                | some v =>
                    cases htr : truncate (pyRound v (R : ℤ)) P with
                    | none =>
                        simp [procSym, hsp, hl, hv, hp, htr, eraseObjRes,
                          setObjNone]
                    | some tv =>
                        simp [procSym, hsp, hl, hv, hp, htr, eraseObjRes,
                          eraseObj]
          · simp [procSym, hsp, hl, hv, eraseObjRes]

/-- A continuing `procSym` step preserves the `status` field. -/
lemma procSym_cont_status (tbl : SymTab) (R P : ℕ) (line : Str)
    (st st' : DecState) (h : procSym tbl R P line st = .cont st') :
    st'.status = st.status := by
  cases hsp : split1 line with
  | nil => simp [procSym, hsp] at h
  | cons s0 rest =>
      cases hl : lookupS s0 tbl with
      | none => simp [procSym, hsp, hl] at h; rw [← h]
      | some e =>
          by_cases hv : e.isVar
          · cases rest with
            | nil => simp [procSym, hsp, hl, hv] at h
            | cons tok more =>
                cases hp : parseFloat tok with
                | none => simp [procSym, hsp, hl, hv, hp] at h
                | some v =>
                    cases htr : truncate (pyRound v (R : ℤ)) P with
                    | none => simp [procSym, hsp, hl, hv, hp, htr] at h
                    | some tv =>
                        simp [procSym, hsp, hl, hv, hp, htr] at h
                        rw [← h]
          · simp [procSym, hsp, hl, hv] at h; rw [← h]

/-- Elements enumerated from a list are elements of the list. -/
lemma snd_mem_enumFrom {l : List Str} {n : ℕ} {p : ℕ × Str}
    (hp : p ∈ List.enumFrom n l) : p.2 ∈ l := by
  induction l generalizing n with
  | nil => simp [List.enumFrom] at hp
  | cons a t ih =>
      simp only [List.enumFrom, List.mem_cons] at hp
      rcases hp with rfl | hp
      · exact List.mem_cons_self _ _
      · exact List.mem_cons_of_mem _ (ih hp)

/-- On a stretch of non-marker lines with status already captured, the runs
over any two line contexts track each other exactly, up to the `objective`
field: the marker arm (the only reader of `lines`, `j`, and writer of
`objective`) is never taken. -/
lemma runLines_noMarker_eraseObj (lines1 lines2 : List Str) (tbl : SymTab)
    (R P : ℕ) (pairs : List (ℕ × Str)) (stg : DecState)
    (hmark : ∀ p ∈ pairs, ¬ (str "# Primal solution values" <:+: p.2))
    (hstat : stg.status.isSome) :
    runLines lines1 tbl R P pairs (eraseObj stg) =
      setObjNone (runLines lines2 tbl R P pairs stg) := by
  induction pairs generalizing stg with
  | nil => simp [runLines, setObjNone]
  | cons p rest ih =>
      obtain ⟨j, line⟩ := p
      have hm : ¬ (str "# Primal solution values" <:+: line) :=
        hmark (j, line) (List.mem_cons_self _ _)
      have hns : ∀ st0 : DecState, st0.status.isSome →
          ¬ (st0.status = none ∧ j ≤ 10) := by
        rintro st0 h0 ⟨hc, -⟩
        rw [hc] at h0
        exact absurd h0 (by simp)
      have hstep1 : decodeStep lines1 tbl R P j line (eraseObj stg) =
          procSym tbl R P line (eraseObj stg) := by
        rw [decodeStep, if_neg (hns _ (by simpa [eraseObj_status] using hstat)),
          procRow, if_neg hm]
      have hstep2 : decodeStep lines2 tbl R P j line stg =
          procSym tbl R P line stg := by
        rw [decodeStep, if_neg (hns _ hstat), procRow, if_neg hm]
      rw [runLines, hstep1, procSym_eraseObj]
      rw [runLines, hstep2]
      cases hps : procSym tbl R P line stg with
      | cont st' =>
          simp only [eraseObjRes]
          exact ih st' (fun p hp => hmark p (List.mem_cons_of_mem _ hp))
            (by rw [procSym_cont_status tbl R P line stg st' hps]; exact hstat)
      | stop o => simp [eraseObjRes]

/-- A line whose head token contains a newline can never match a table whose
keys are newline-free. -/
lemma lookup_none_of_nl {tbl : SymTab} (hkeys : ∀ k ∈ keysOf tbl, '\n' ∉ k)
    {s : Str} (hnl : '\n' ∈ s) : lookupS s tbl = none := by
  cases h : lookupS s tbl with
  | none => rfl
  | some e => exact absurd hnl (hkeys s (lookupS_mem h))

/-- `dropWhile` is the identity when the predicate fails everywhere. -/
lemma dropWhile_eq_self_of_all {p : Char → Bool} {l : Str}
    (h : ∀ c ∈ l, p c = false) : l.dropWhile p = l := by
  cases l with
  | nil => rfl
  | cons c cs =>
      simp [List.dropWhile_cons, h c (List.mem_cons_self _ _)]

/-- `rstrip("\n")` on a newline-free string is the identity. -/
lemma rstripNL_eq_self {l : Str} (h : '\n' ∉ l) : rstripNL l = l := by
  unfold rstripNL
  rw [dropWhile_eq_self_of_all, List.reverse_reverse]
  intro c hc
  simp only [decide_eq_false_iff_not]
  intro he
  exact h (he ▸ (List.mem_reverse.mp hc))

/-- `rstrip("\n")` removes a final newline. -/
lemma rstripNL_append_nl (l : Str) : rstripNL (l ++ ['\n']) = rstripNL l := by
  unfold rstripNL
  simp [List.dropWhile_cons]

/-- A step on a line whose head token is unknown (and which is not the
marker line) just continues. -/
lemma decodeStep_skip (lines : List Str) (tbl : SymTab) (R P : ℕ) (j : ℕ)
    (line : Str) (st : DecState) (s0 : Str) (rest : List Str)
    (hstat : st.status.isSome)
    (hmark : ¬ (str "# Primal solution values" <:+: line))
    (hsp : split1 line = s0 :: rest) (hl : lookupS s0 tbl = none) :
    decodeStep lines tbl R P j line st = .cont st := by
  have hns : ¬ (st.status = none ∧ j ≤ 10) := by
    rintro ⟨hc, -⟩
    rw [hc] at hstat
    exact absurd hstat (by simp)
  rw [decodeStep, if_neg hns, procRow, if_neg hmark]
  simp [procSym, hsp, hl]

/-- A family of solution files with a parametric objective value token and
parametric trailing rows: the fixed header captures the status, the marker
line consumes the primal-count line and the objective line. -/
def objFile (objTok : Str) (rows : List Str) : List Str :=
  [str "Model status\n", str "Optimal\n", str "# Primal solution values\n",
    str "1\n", str "Objective " ++ objTok ++ ['\n']] ++ rows

/-- Decoding `objFile objTok rows` processes its five header lines into the
state `⟨Optimal, 1, parseFloat objTok, []⟩` and then runs the remaining
rows: in particular the objective field is exactly the result of the lenient
parse of the objective token. -/
lemma objFile_run (objTok : Str) (rows : List Str) (tbl : SymTab) (R P : ℕ)
    (hnl : '\n' ∉ objTok) (hhash : '#' ∉ objTok)
    (hkeysnl : ∀ k ∈ keysOf tbl, '\n' ∉ k)
    (hModel : lookupS (str "Model") tbl = none)
    (hObjective : lookupS (str "Objective") tbl = none) :
    read_values_from_sol (objFile objTok rows) tbl R P =
      runLines (objFile objTok rows) tbl R P (List.enumFrom 5 rows)
        ⟨some (str "Optimal"), some (str "1"), parseFloat objTok, []⟩ := by
  have hnl4 : '\n' ∉ str "Objective " ++ objTok := by
    simp only [List.mem_append]
    rintro (h | h)
    · exact absurd h (by decide)
    · exact hnl h
  have hOsp : str "Objective " ++ objTok = str "Objective" ++ ' ' :: objTok := by
    rw [show str "Objective " = str "Objective" ++ [' '] by decide]
    simp
  have hrs4 : rstripNL (str "Objective " ++ (objTok ++ ['\n'])) =
      str "Objective" ++ ' ' :: objTok := by
    rw [← List.append_assoc, rstripNL_append_nl, rstripNL_eq_self hnl4, hOsp]
  have hsp4 : split1 (str "Objective" ++ ' ' :: objTok) =
      [str "Objective", objTok] := split1_space _ _ (by decide)
  have hmark4 : ¬ (str "# Primal solution values" <:+:
      str "Objective " ++ objTok ++ ['\n']) := by
    intro h
    have hmem := h.subset (show '#' ∈ str "# Primal solution values" by decide)
    simp only [List.append_assoc, List.mem_append] at hmem
    rcases hmem with h | h | h
    · exact absurd h (by decide)
    · exact hhash h
    · exact absurd h (by decide)
  have hs0 : decodeStep (objFile objTok rows) tbl R P 0
      (str "Model status\n") ⟨none, none, none, []⟩ =
      .cont ⟨some (str "Optimal"), none, none, []⟩ := by
    have h1 : (objFile objTok rows)[1]? = some (str "Optimal\n") := rfl
    have hrs : rstripNL (str "Optimal\n") = str "Optimal" := by decide
    have hsp : split1 (str "Model status\n") =
        [str "Model", str "status\n"] := by decide
    simp +decide [decodeStep, procRow, procSym, h1, hrs, hsp, hModel]
  have hs1 : decodeStep (objFile objTok rows) tbl R P 1 (str "Optimal\n")
      ⟨some (str "Optimal"), none, none, []⟩ =
      .cont ⟨some (str "Optimal"), none, none, []⟩ :=
    decodeStep_skip _ tbl R P 1 _ _ (str "Optimal\n") [] (by simp)
      (by decide) (by decide) (lookup_none_of_nl hkeysnl (by decide))
  have hs2 : decodeStep (objFile objTok rows) tbl R P 2
      (str "# Primal solution values\n")
      ⟨some (str "Optimal"), none, none, []⟩ =
      .cont ⟨some (str "Optimal"), some (str "1"), parseFloat objTok, []⟩ := by
    have h3 : (objFile objTok rows)[3]? = some (str "1\n") := rfl
    have h4 : (objFile objTok rows)[4]? =
        some (str "Objective " ++ (objTok ++ ['\n'])) := by
      simp [objFile]
    have hr3 : rstripNL (str "1\n") = str "1" := by decide
    cases hp : parseFloat objTok with
    | none =>
        simp +decide [decodeStep, procRow, procMarker, h3, h4, hr3, hrs4,
          hsp4, lastTok, hp]
    | some v =>
        simp +decide [decodeStep, procRow, procMarker, h3, h4, hr3, hrs4,
          hsp4, lastTok, hp]
  have hs3 : decodeStep (objFile objTok rows) tbl R P 3 (str "1\n")
      ⟨some (str "Optimal"), some (str "1"), parseFloat objTok, []⟩ =
      .cont ⟨some (str "Optimal"), some (str "1"), parseFloat objTok, []⟩ :=
    decodeStep_skip _ tbl R P 3 _ _ (str "1\n") [] (by simp)
      (by decide) (by decide) (lookup_none_of_nl hkeysnl (by decide))
  have hsp4' : split1 (str "Objective " ++ objTok ++ ['\n']) =
      [str "Objective", objTok ++ ['\n']] := by
    rw [show str "Objective " ++ objTok ++ ['\n'] =
      str "Objective" ++ ' ' :: (objTok ++ ['\n']) by
        rw [show str "Objective " = str "Objective" ++ [' '] by decide]
        simp]
    exact split1_space _ _ (by decide)
  have hs4 : decodeStep (objFile objTok rows) tbl R P 4
      (str "Objective " ++ objTok ++ ['\n'])
      ⟨some (str "Optimal"), some (str "1"), parseFloat objTok, []⟩ =
      .cont ⟨some (str "Optimal"), some (str "1"), parseFloat objTok, []⟩ :=
    decodeStep_skip _ tbl R P 4 _ _ (str "Objective") [objTok ++ ['\n']]
      (by simp) hmark4 hsp4' hObjective
  have henum : (objFile objTok rows).enum =
      (0, str "Model status\n") :: (1, str "Optimal\n") ::
      (2, str "# Primal solution values\n") :: (3, str "1\n") ::
      (4, str "Objective " ++ objTok ++ ['\n']) ::
      List.enumFrom 5 rows := rfl
  rw [read_values_from_sol, henum]
  simp only [runLines, hs0, hs1, hs2, hs3, hs4]

/-! ## Digit-character lemmas and the line structure of the warm-start file -/

/-- Every entry of a fuelled digit expansion is a digit. -/
lemma digAux_lt (fuel n : ℕ) : ∀ d ∈ digAux fuel n, d < 10 := by
  induction fuel generalizing n with
  | zero => simp [digAux]
  | succ f ih =>
      intro d hd
      by_cases hn : n = 0
      · simp [digAux, hn] at hd
      · simp only [digAux, if_neg hn, List.mem_cons] at hd
        rcases hd with rfl | hd
        · exact Nat.mod_lt _ (by norm_num)
        · exact ih (n / 10) d hd

/-- The digit character of a digit is in the class `isDigitCh`. -/
lemma isDigitCh_digitChar {d : ℕ} (hd : d < 10) :
    isDigitCh (digitChar d) = true := by
  interval_cases d <;> decide

/-- Every character of `natDigits n` is a digit character. -/
lemma natDigits_digitCh (n : ℕ) : ∀ c ∈ natDigits n, isDigitCh c = true := by
  intro c hc
  unfold natDigits at hc
  by_cases hn : n = 0
  · rw [if_pos hn] at hc
    rcases List.mem_singleton.mp hc with rfl
    decide
  · rw [if_neg hn] at hc
    rcases List.mem_map.mp (List.mem_reverse.mp hc) with ⟨d, hd, rfl⟩
    exact isDigitCh_digitChar (digAux_lt n n d hd)

/-- Every character of `natDigitsPad n k` is a digit character. -/
lemma natDigitsPad_digitCh (n k : ℕ) :
    ∀ c ∈ natDigitsPad n k, isDigitCh c = true := by
  intro c hc
  unfold natDigitsPad at hc
  by_cases hk : k = 0
  · rw [if_pos hk] at hc
    rcases List.mem_singleton.mp hc with rfl
    decide
  · rw [if_neg hk] at hc
    rcases List.mem_map.mp (List.mem_reverse.mp hc) with ⟨d, hd, rfl⟩
    rcases List.mem_append.mp hd with hd | hd
    · exact isDigitCh_digitChar (digAux_lt n n d hd)
    · rcases List.eq_of_mem_replicate hd with rfl
      decide

/-- A digit character is none of the structural characters. -/
lemma isDigitCh_ne {c : Char} (h : isDigitCh c = true) :
    c ≠ '\n' ∧ c ≠ ' ' ∧ c ≠ '.' ∧ c ≠ '-' ∧ isWS c = false := by
  refine ⟨?_, ?_, ?_, ?_, ?_⟩
  · rintro rfl; exact absurd h (by decide)
  · rintro rfl; exact absurd h (by decide)
  · rintro rfl; exact absurd h (by decide)
  · rintro rfl; exact absurd h (by decide)
  · have h1 : ¬ (c = ' ') := by rintro rfl; exact absurd h (by decide)
    have h2 : ¬ (c = '\n') := by rintro rfl; exact absurd h (by decide)
    have h3 : ¬ (c = '\t') := by rintro rfl; exact absurd h (by decide)
    have h4 : ¬ (c = '\r') := by rintro rfl; exact absurd h (by decide)
    simp [isWS, h1, h2, h3, h4]

/-- Membership description of `pyStr`'s characters. -/
lemma pyStr_chars (q : ℚ) : ∀ c ∈ pyStr q,
    c = '-' ∨ c = '.' ∨ isDigitCh c = true := by
  intro c hc
  unfold pyStr at hc
  simp only [List.mem_append, List.mem_singleton] at hc
  rcases hc with ((hc | hc) | hc) | hc
  · split at hc
    · rcases List.mem_singleton.mp hc with rfl
      exact Or.inl rfl
    · simp at hc
  · exact Or.inr (Or.inr (natDigits_digitCh _ c hc))
  · exact Or.inr (Or.inl hc)
  · exact Or.inr (Or.inr (natDigitsPad_digitCh _ _ c hc))

/-- `pyStr` never contains a newline. -/
lemma pyStr_no_nl (q : ℚ) : '\n' ∉ pyStr q := by
  intro h
  rcases pyStr_chars q '\n' h with h | h | h
  · exact absurd h (by decide)
  · exact absurd h (by decide)
  · exact absurd h (by decide)

/-- `pyStr` never contains a space. -/
lemma pyStr_no_space (q : ℚ) : ' ' ∉ pyStr q := by
  intro h
  rcases pyStr_chars q ' ' h with h | h | h
  · exact absurd h (by decide)
  · exact absurd h (by decide)
  · exact absurd h (by decide)

/-- `natDigits` never contains a newline or a space. -/
lemma natDigits_no_nl_space (n : ℕ) :
    '\n' ∉ natDigits n ∧ ' ' ∉ natDigits n := by
  constructor
  · intro h
    exact absurd (natDigits_digitCh n '\n' h) (by decide)
  · intro h
    exact absurd (natDigits_digitCh n ' ' h) (by decide)

/-- Peeling one complete line off `splitLinesAux`. -/
lemma splitLinesAux_line (core rest : Str) (acc : Str) (h : '\n' ∉ core) :
    splitLinesAux (core ++ '\n' :: rest) acc =
      (acc.reverse ++ core ++ ['\n']) :: splitLinesAux rest [] := by
  induction core generalizing acc with
  | nil => simp [splitLinesAux]
  | cons c cs ih =>
      have hc : ¬ (c = '\n') := fun he => h (he ▸ List.mem_cons_self _ _)
      simp only [List.cons_append, splitLinesAux, if_neg hc, List.append_eq]
      rw [ih (c :: acc) (fun hm => h (List.mem_cons_of_mem _ hm))]
      simp

/-- Peeling one complete line off `splitLines`. -/
lemma splitLines_line (core rest : Str) (h : '\n' ∉ core) :
    splitLines ((core ++ ['\n']) ++ rest) =
      (core ++ ['\n']) :: splitLines rest := by
  unfold splitLines
  rw [show (core ++ ['\n']) ++ rest = core ++ '\n' :: rest by simp]
  rw [splitLinesAux_line core rest [] h]
  simp

/-- The row chunks written by the warm-start writer split into exactly the
per-decision-variable rows of the spec's grammar. -/
lemma warmRows_splitLines (t : List (Str × Entry))
    (h : ∀ p ∈ t, '\n' ∉ p.1) :
    splitLines ((t.map rowChunk).flatten) = t.filterMap warmRowLine := by
  induction t with
  | nil => simp [splitLines, splitLinesAux]
  | cons p t ih =>
      have hp : '\n' ∉ p.1 := h p (List.mem_cons_self _ _)
      have ht : ∀ p ∈ t, '\n' ∉ p.1 :=
        fun p hp => h p (List.mem_cons_of_mem _ hp)
      by_cases hv : p.2.isVar
      · cases hval : p.2.value with
        | none =>
            have hcore : '\n' ∉ p.1 ++ str " 0.0" := by
              simp only [List.mem_append]
              rintro (hc | hc)
              · exact hp hc
              · exact absurd hc (by decide)
            have hchunk : rowChunk p = (p.1 ++ str " 0.0") ++ ['\n'] := by
              simp [rowChunk, hv, hval, str]
            rw [List.map_cons, List.flatten_cons, hchunk, List.append_assoc,
              ← List.append_assoc]
            rw [splitLines_line _ _ hcore, ih ht]
            simp [warmRowLine, hv, hval, str]
        | some v =>
            have hcore : '\n' ∉ p.1 ++ str " " ++ pyStr v := by
              simp only [List.append_assoc, List.mem_append]
              rintro (hc | hc | hc)
              · exact hp hc
              · exact absurd hc (by decide)
              · exact pyStr_no_nl v hc
            have hchunk : rowChunk p =
                ((p.1 ++ str " " ++ pyStr v) ++ ['\n']) := by
              simp [rowChunk, hv, hval, str]
            rw [List.map_cons, List.flatten_cons, hchunk, List.append_assoc,
              ← List.append_assoc]
            rw [splitLines_line _ _ hcore, ih ht]
            simp [warmRowLine, hv, hval, str]
      · have hchunk : rowChunk p = [] := by simp [rowChunk, hv]
        rw [List.map_cons, List.flatten_cons, hchunk, List.nil_append, ih ht]
        simp [warmRowLine, hv]

/-- The content written by `_write_warmstartfile` splits into exactly the
line list of the spec's §4.4 grammar. -/
lemma warmstart_splitLines (tbl : SymTab)
    (hkeys : ∀ p ∈ tbl, '\n' ∉ p.1) :
    splitLines (write_warmstartfile tbl) = warmstartLines_spec tbl := by
  have hcols : '\n' ∉ str "# Columns " ++ natDigits (n_var tbl) := by
    simp only [List.mem_append]
    rintro (hc | hc)
    · exact absurd hc (by decide)
    · exact (natDigits_no_nl_space _).1 hc
  have hW : write_warmstartfile tbl =
      (str "Model status" ++ ['\n']) ++
      ((str "Unknown" ++ ['\n']) ++
      (([] ++ ['\n']) ++
      ((str "# Primal solution values" ++ ['\n']) ++
      ((str "Unknown" ++ ['\n']) ++
      ((str "Objective Unknown" ++ ['\n']) ++
      (((str "# Columns " ++ natDigits (n_var tbl)) ++ ['\n']) ++
      (tbl.map rowChunk).flatten)))))) := by
    simp [write_warmstartfile, str]
  rw [hW]
  rw [splitLines_line _ _ (by decide), splitLines_line _ _ (by decide),
    splitLines_line _ _ (by decide), splitLines_line _ _ (by decide),
    splitLines_line _ _ (by decide), splitLines_line _ _ (by decide),
    splitLines_line _ _ hcols, warmRows_splitLines tbl hkeys]
  simp [warmstartLines_spec, str]

/-! ## Round-trip of the decimal serialisation (C2) -/

/-- The fuelled digit expansion is exact when the fuel covers the number. -/
lemma valLE_digAux : ∀ fuel n : ℕ, n ≤ fuel → valLE (digAux fuel n) = n := by
  intro fuel
  induction fuel with
  | zero =>
      intro n hn
      interval_cases n
      simp [digAux, valLE]
  | succ f ih =>
      intro n hn
      by_cases hn0 : n = 0
      · simp [digAux, hn0, valLE]
      · have hdiv : n / 10 ≤ f := by
          have h1 : n / 10 < n := Nat.div_lt_self (Nat.pos_of_ne_zero hn0)
            (by norm_num)
          omega
        simp only [digAux, if_neg hn0, valLE, ih (n / 10) hdiv]
        omega

/-- The digit expansion of `n < 10^k` has at most `k` digits. -/
lemma digAux_length : ∀ fuel n k : ℕ, n < 10 ^ k →
    (digAux fuel n).length ≤ k := by
  intro fuel
  induction fuel with
  | zero => intro n k _; simp [digAux]
  | succ f ih =>
      intro n k hk
      by_cases hn0 : n = 0
      · simp [digAux, hn0]
      · have hkpos : k ≠ 0 := by
          rintro rfl
          simp at hk
          omega
        obtain ⟨k', rfl⟩ := Nat.exists_eq_succ_of_ne_zero hkpos
        have hdiv : n / 10 < 10 ^ k' := by
          rw [Nat.div_lt_iff_lt_mul (by norm_num : (0:ℕ) < 10)]
          calc n < 10 ^ (k' + 1) := hk
            _ = 10 ^ k' * 10 := by ring
        simp only [digAux, if_neg hn0, List.length_cons]
        exact Nat.succ_le_succ (ih (n / 10) k' hdiv)

/-- Trailing zeros do not change the value of a little-endian digit list. -/
lemma valLE_append_zeros (l : List ℕ) (m : ℕ) :
    valLE (l ++ List.replicate m 0) = valLE l := by
  induction l with
  | nil =>
      induction m with
      | zero => rfl
      | succ m ihm => simpa [List.replicate_succ, valLE] using ihm
  | cons d ds ih => simp [valLE, ih]

/-- `charDigit` inverts `digitChar` on digits. -/
lemma charDigit_digitChar {d : ℕ} (hd : d < 10) :
    charDigit (digitChar d) = d := by
  interval_cases d <;> decide

/-- Parsing back the rendering of a natural number. -/
lemma valBE_natDigits (n : ℕ) : valBE (natDigits n) = n := by
  by_cases hn : n = 0
  · subst hn; decide
  · unfold natDigits natDigitsLE valBE
    rw [if_neg hn, List.map_reverse, List.reverse_reverse, List.map_map]
    have hmap : (digAux n n).map (charDigit ∘ digitChar) = digAux n n := by
      have hcg : ∀ d ∈ digAux n n, (charDigit ∘ digitChar) d = id d := by
        intro d hd
        exact charDigit_digitChar (digAux_lt n n d hd)
      rw [List.map_congr_left hcg, List.map_id]
    rw [hmap]
    exact valLE_digAux n n le_rfl

/-- Parsing back the padded rendering of `n < 10^k`. -/
lemma valBE_natDigitsPad {n k : ℕ} (hk : n < 10 ^ k) :
    valBE (natDigitsPad n k) = n := by
  by_cases hk0 : k = 0
  · subst hk0
    simp only [pow_zero, Nat.lt_one_iff] at hk
    subst hk
    decide
  · unfold natDigitsPad natDigitsLE valBE
    rw [if_neg hk0, List.map_reverse, List.reverse_reverse, List.map_map]
    have hall : ∀ d ∈ digAux n n ++ List.replicate (k - (digAux n n).length) 0,
        d < 10 := by
      intro d hd
      rcases List.mem_append.mp hd with hd | hd
      · exact digAux_lt n n d hd
      · rcases List.eq_of_mem_replicate hd with rfl
        norm_num
    have hmap : (digAux n n ++ List.replicate (k - (digAux n n).length) 0).map
        (charDigit ∘ digitChar) =
        digAux n n ++ List.replicate (k - (digAux n n).length) 0 := by
      have hcg : ∀ d ∈ digAux n n ++ List.replicate (k - (digAux n n).length) 0,
          (charDigit ∘ digitChar) d = id d := by
        intro d hd
        exact charDigit_digitChar (hall d hd)
      rw [List.map_congr_left hcg, List.map_id]
    rw [hmap, valLE_append_zeros]
    exact valLE_digAux n n le_rfl

/-- The padded rendering of `n < 10^k` has exactly `k` digits (for `k ≠ 0`). -/
lemma length_natDigitsPad {n k : ℕ} (hk0 : k ≠ 0) (hk : n < 10 ^ k) :
    (natDigitsPad n k).length = k := by
  unfold natDigitsPad natDigitsLE
  rw [if_neg hk0]
  simp only [List.length_reverse, List.length_map, List.length_append,
    List.length_replicate]
  have := digAux_length n n k hk
  omega

/-- A string with no whitespace character strips to itself. -/
lemma stripWS_of_no_ws {s : Str} (h : ∀ c ∈ s, isWS c = false) :
    stripWS s = s := by
  unfold stripWS
  rw [dropWhile_eq_self_of_all h,
    dropWhile_eq_self_of_all (fun c hc => h c (List.mem_reverse.mp hc)),
    List.reverse_reverse]

/-- Stripping a trailing newline from a whitespace-free string. -/
lemma stripWS_append_nl {s : Str} (h : ∀ c ∈ s, isWS c = false) :
    stripWS (s ++ ['\n']) = s := by
  cases s with
  | nil => decide
  | cons c cs =>
      unfold stripWS
      have hc : isWS c = false := h c (List.mem_cons_self _ _)
      rw [List.cons_append, List.dropWhile_cons, hc]
      simp only [Bool.false_eq_true, if_false]
      rw [show (c :: (cs ++ ['\n'])).reverse = '\n' :: (cs.reverse ++ [c])
        by simp]
      rw [List.dropWhile_cons]
      rw [show isWS '\n' = true by decide]
      simp only [if_true]
      rw [dropWhile_eq_self_of_all]
      · simp
      · intro x hx
        rcases List.mem_append.mp hx with hx | hx
        · exact h x (List.mem_cons_of_mem _ (List.mem_reverse.mp hx))
        · rcases List.mem_singleton.mp hx with rfl
          exact hc

/-- No character of `pyStr` is whitespace. -/
lemma pyStr_no_ws (q : ℚ) : ∀ c ∈ pyStr q, isWS c = false := by
  intro c hc
  rcases pyStr_chars q c hc with rfl | rfl | h
  · decide
  · decide
  · exact (isDigitCh_ne h).2.2.2.2

/-- `natDigits` is never empty. -/
lemma natDigits_ne_nil (n : ℕ) : natDigits n ≠ [] := by
  unfold natDigits
  by_cases hn : n = 0
  · simp [hn]
  · rw [if_neg hn]
    simp only [ne_eq, List.reverse_eq_nil_iff, List.map_eq_nil_iff]
    unfold natDigitsLE
    cases hf : n with
    | zero => exact absurd hf hn
    | succ f =>
        simp [digAux, hn]

/-- Parsing an unsigned decimal rendered as digits-dot-digits. -/
lemma parseUnsigned_render (ip fp : Str)
    (hip : ∀ c ∈ ip, isDigitCh c = true) (hfp : ∀ c ∈ fp, isDigitCh c = true)
    (hfpne : fp ≠ []) :
    parseUnsigned (ip ++ '.' :: fp) =
      some ((valBE ip : ℚ) + (valBE fp : ℚ) / 10 ^ fp.length) := by
  have hnd : ∀ c ∈ ip, (!(c = '.')) = true := by
    intro c hc
    simp only [Bool.not_eq_true', decide_eq_false_iff_not]
    exact (isDigitCh_ne (hip c hc)).2.2.1
  unfold parseUnsigned
  rw [takeWhile_append_all _ _ hnd, dropWhile_append_all _ _ hnd]
  rw [List.takeWhile_cons, List.dropWhile_cons]
  rw [show (!(('.' : Char) = '.')) = false by decide]
  simp only [Bool.false_eq_true, if_false, List.append_nil]
  rw [if_pos]
  refine ⟨Or.inr hfpne, ?_, ?_, ?_⟩
  · exact List.all_eq_true.mpr fun c hc => hip c hc
  · exact List.all_eq_true.mpr fun c hc => hfp c hc
  · intro hdot
    exact absurd (hfp '.' hdot) (by decide)

/-- The padded rendering is never empty. -/
lemma natDigitsPad_ne_nil (n k : ℕ) : natDigitsPad n k ≠ [] := by
  unfold natDigitsPad natDigitsLE
  by_cases hk0 : k = 0
  · simp [hk0]
  · rw [if_neg hk0]
    simp only [ne_eq, List.reverse_eq_nil_iff, List.map_eq_nil_iff,
      List.append_eq_nil, not_and]
    intro hd
    rw [hd]
    simp [List.replicate_eq_nil_iff, hk0]

/-- Round trip: parsing the exact decimal rendering of a `FloatLike`
rational (with the trailing newline of its row) recovers the rational. -/
lemma parseFloat_pyStr_nl (q : ℚ) (hq : FloatLike q) :
    parseFloat (pyStr q ++ ['\n']) = some q := by
  have hden0 : (q.den : ℚ) ≠ 0 := by
    exact_mod_cast q.den_pos.ne'
  have hF : q.num.natAbs * (10 ^ decExp q.den / q.den) % 10 ^ decExp q.den <
      10 ^ decExp q.den := Nat.mod_lt _ (by positivity)
  have hbodyval : (valBE (natDigits (q.num.natAbs *
        (10 ^ decExp q.den / q.den) / 10 ^ decExp q.den)) : ℚ) +
      (valBE (natDigitsPad (q.num.natAbs *
        (10 ^ decExp q.den / q.den) % 10 ^ decExp q.den) (decExp q.den)) : ℚ) /
      10 ^ (natDigitsPad (q.num.natAbs *
        (10 ^ decExp q.den / q.den) % 10 ^ decExp q.den)
          (decExp q.den)).length =
      (q.num.natAbs * (10 ^ decExp q.den / q.den) : ℕ) / (10 ^ decExp q.den : ℚ) := by
    rw [valBE_natDigits]
    by_cases hk0 : decExp q.den = 0
    · rw [hk0]
      simp only [pow_zero, Nat.mod_one, Nat.div_one]
      rw [show natDigitsPad 0 0 = ['0'] from rfl]
      have hch : charDigit '0' = 0 := by decide
      simp [valBE, valLE, hch]
    · rw [valBE_natDigitsPad hF, length_natDigitsPad hk0 hF]
      have hdm := Nat.div_add_mod
        (q.num.natAbs * (10 ^ decExp q.den / q.den)) (10 ^ decExp q.den)
      have h10 : ((10 : ℚ) ^ decExp q.den) ≠ 0 := by positivity
      have hdmq : ((10 : ℚ)) ^ decExp q.den *
          ((q.num.natAbs * (10 ^ decExp q.den / q.den) /
            10 ^ decExp q.den : ℕ) : ℚ) +
          ((q.num.natAbs * (10 ^ decExp q.den / q.den) %
            10 ^ decExp q.den : ℕ) : ℚ) =
          ((q.num.natAbs * (10 ^ decExp q.den / q.den) : ℕ) : ℚ) := by
        exact_mod_cast congrArg (fun x : ℕ => (x : ℚ)) hdm
      rw [eq_div_iff h10, add_mul, div_mul_cancel₀ _ h10]
      linarith [hdmq]
  have habs : ((q.num.natAbs * (10 ^ decExp q.den / q.den) : ℕ) : ℚ) /
      (10 ^ decExp q.den : ℚ) = |q| := by
    have hcast : ((10 ^ decExp q.den / q.den : ℕ) : ℚ) =
        (10 ^ decExp q.den : ℚ) / (q.den : ℚ) := by
      rw [Nat.cast_div hq hden0]
      push_cast
      ring
    have hdenpos : (0 : ℚ) < (q.den : ℚ) := by
      exact_mod_cast q.den_pos
    have habsq : |q| = |(q.num : ℚ)| / (q.den : ℚ) := by
      conv_lhs => rw [← Rat.num_div_den q]
      rw [abs_div, abs_of_pos hdenpos]
    have h10 : ((10 : ℚ) ^ decExp q.den) ≠ 0 := by positivity
    rw [habsq]
    push_cast [hcast, Int.cast_natAbs]
    field_simp
    ring
  have hbody : parseUnsigned (natDigits (q.num.natAbs *
        (10 ^ decExp q.den / q.den) / 10 ^ decExp q.den) ++
      '.' :: natDigitsPad (q.num.natAbs *
        (10 ^ decExp q.den / q.den) % 10 ^ decExp q.den) (decExp q.den)) =
      some |q| := by
    rw [parseUnsigned_render _ _ (natDigits_digitCh _)
      (natDigitsPad_digitCh _ _) (natDigitsPad_ne_nil _ _)]
    rw [hbodyval, habs]
  have hpyq : pyStr q = (if q.num < 0 then ['-'] else []) ++
      (natDigits (q.num.natAbs * (10 ^ decExp q.den / q.den) /
        10 ^ decExp q.den) ++
      '.' :: natDigitsPad (q.num.natAbs *
        (10 ^ decExp q.den / q.den) % 10 ^ decExp q.den) (decExp q.den)) := by
    unfold pyStr
    simp [List.append_assoc]
  have hbodyws : ∀ c ∈ natDigits (q.num.natAbs *
        (10 ^ decExp q.den / q.den) / 10 ^ decExp q.den) ++
      '.' :: natDigitsPad (q.num.natAbs *
        (10 ^ decExp q.den / q.den) % 10 ^ decExp q.den) (decExp q.den),
      isWS c = false := by
    intro c hc
    have : c ∈ pyStr q := by
      rw [hpyq]
      exact List.mem_append.mpr (Or.inr hc)
    exact pyStr_no_ws q c this
  rw [hpyq]
  by_cases hneg : q.num < 0
  · rw [if_pos hneg]
    have hst : stripWS (('-' :: (natDigits (q.num.natAbs *
          (10 ^ decExp q.den / q.den) / 10 ^ decExp q.den) ++
        '.' :: natDigitsPad (q.num.natAbs *
          (10 ^ decExp q.den / q.den) % 10 ^ decExp q.den)
          (decExp q.den))) ++ ['\n']) =
        '-' :: (natDigits (q.num.natAbs *
          (10 ^ decExp q.den / q.den) / 10 ^ decExp q.den) ++
        '.' :: natDigitsPad (q.num.natAbs *
          (10 ^ decExp q.den / q.den) % 10 ^ decExp q.den) (decExp q.den)) := by
      apply stripWS_append_nl
      intro c hc
      simp only [List.mem_cons] at hc
      rcases hc with rfl | hc
      · decide
      · exact hbodyws c hc
    rw [show (['-'] ++ (natDigits (q.num.natAbs *
        (10 ^ decExp q.den / q.den) / 10 ^ decExp q.den) ++
      '.' :: natDigitsPad (q.num.natAbs *
        (10 ^ decExp q.den / q.den) % 10 ^ decExp q.den) (decExp q.den))) ++
        ['\n'] =
      ('-' :: (natDigits (q.num.natAbs *
        (10 ^ decExp q.den / q.den) / 10 ^ decExp q.den) ++
      '.' :: natDigitsPad (q.num.natAbs *
        (10 ^ decExp q.den / q.den) % 10 ^ decExp q.den) (decExp q.den))) ++
        ['\n'] by simp]
    unfold parseFloat
    rw [hst]
    have hqneg : q < 0 := by
      rwa [← Rat.num_neg]
    simp [hbody, abs_of_neg hqneg]
  · rw [if_neg hneg]
    rcases hcons : natDigits (q.num.natAbs *
        (10 ^ decExp q.den / q.den) / 10 ^ decExp q.den) with _ | ⟨c, tail⟩
    · exact absurd hcons (natDigits_ne_nil _)
    · have hcd : isDigitCh c = true := by
        apply natDigits_digitCh
        rw [hcons]
        exact List.mem_cons_self _ _
      have hst : stripWS ((c :: (tail ++
          '.' :: natDigitsPad (q.num.natAbs *
            (10 ^ decExp q.den / q.den) % 10 ^ decExp q.den)
            (decExp q.den))) ++ ['\n']) =
          c :: (tail ++ '.' :: natDigitsPad (q.num.natAbs *
            (10 ^ decExp q.den / q.den) % 10 ^ decExp q.den)
            (decExp q.den)) := by
        apply stripWS_append_nl
        intro x hx
        apply hbodyws
        rw [hcons]
        simpa using hx
      show parseFloat ((c :: (tail ++ '.' :: natDigitsPad (q.num.natAbs *
          (10 ^ decExp q.den / q.den) % 10 ^ decExp q.den)
          (decExp q.den))) ++ ['\n']) = some q
      unfold parseFloat
      rw [hst]
      simp only
      rw [if_neg (isDigitCh_ne hcd).2.2.2.1, if_neg (by
        rintro rfl
        exact absurd hcd (by decide))]
      rw [show c :: (tail ++ '.' :: natDigitsPad (q.num.natAbs *
          (10 ^ decExp q.den / q.den) % 10 ^ decExp q.den)
          (decExp q.den)) =
        natDigits (q.num.natAbs * (10 ^ decExp q.den / q.den) /
          10 ^ decExp q.den) ++
        '.' :: natDigitsPad (q.num.natAbs *
          (10 ^ decExp q.den / q.den) % 10 ^ decExp q.den)
          (decExp q.den) by rw [hcons]; simp]
      rw [hbody]
      have hqpos : 0 ≤ q := by
        rw [← Rat.num_nonneg]
        omega
      rw [abs_of_nonneg hqpos]

/-! ## Decoding the warm-start file (C2) -/

/-- A one-space row can never contain the three-space section marker. -/
lemma marker_not_infix_row (s tok : Str) (hs : ' ' ∉ s) (htok : ' ' ∉ tok) :
    ¬ (str "# Primal solution values" <:+: s ++ ' ' :: (tok ++ ['\n'])) := by
  intro h
  have hc := h.sublist.count_le ' '
  have h3 : (str "# Primal solution values").count ' ' = 3 := by decide
  have h1 : (s ++ ' ' :: (tok ++ ['\n'])).count ' ' = 1 := by
    rw [List.count_append, List.count_eq_zero.mpr hs, List.count_cons]
    rw [List.count_append, List.count_eq_zero.mpr htok]
    decide
  rw [h3, h1] at hc
  omega

/-- Lookup misses a key different from every table key. -/
lemma lookupS_eq_none_of_ne {tbl : SymTab} {s : Str}
    (h : ∀ p ∈ tbl, p.1 ≠ s) : lookupS s tbl = none := by
  induction tbl with
  | nil => rfl
  | cons p t ih =>
      obtain ⟨k, e⟩ := p
      have hk : k ≠ s := h (k, e) (List.mem_cons_self _ _)
      simp only [lookupS, if_neg hk]
      exact ih (fun p hp => h p (List.mem_cons_of_mem _ hp))

/-- With duplicate-free keys, lookup finds each item's own entry. -/
lemma lookupS_of_nodup {tbl : SymTab} (hnd : (keysOf tbl).Nodup) :
    ∀ p ∈ tbl, lookupS p.1 tbl = some p.2 := by
  induction tbl with
  | nil => simp
  | cons q t ih =>
      obtain ⟨k1, e1⟩ := q
      rw [keysOf, List.map_cons] at hnd
      have hq : (k1, e1).1 ∉ t.map Prod.fst := (List.nodup_cons.mp hnd).1
      have hnd' : (t.map Prod.fst).Nodup := (List.nodup_cons.mp hnd).2
      intro p hp
      rcases List.mem_cons.mp hp with rfl | hp
      · simp [lookupS]
      · have hne : k1 ≠ p.1 := by
          intro he
          apply hq
          show k1 ∈ t.map Prod.fst
          rw [he]
          exact List.mem_map_of_mem Prod.fst hp
        simp only [lookupS, if_neg hne]
        exact ih hnd' p hp

/-- Parsing the written `0.0` token of an unassigned variable. -/
lemma parseFloat_00_nl : parseFloat (str "0.0" ++ ['\n']) = some 0 := by
  have hch : charDigit '0' = 0 := by decide
  norm_num +decide [parseFloat, parseUnsigned, stripWS, isWS, str,
    List.dropWhile, List.takeWhile, isDigitCh, valBE, valLE, hch]

/-- The decoded values the amended round-trip law predicts: one pair per
decision-variable symbol in table order, carrying
`normalize (value or 0) R P`. -/
def decodedWarmAssigns (t : List (Str × Entry)) (R P : ℕ) :
    List (Str × ℚ) :=
  t.filterMap (fun p =>
    if p.2.isVar then
      some (p.1, normalize_spec (p.2.value.getD 0) R P)
    else none)

/-- Running the decoder over the warm-start rows assigns exactly the
normalised values, in table order. -/
lemma warmRows_run (lines0 : List Str) (tbl : SymTab) (R P : ℕ)
    (t : List (Str × Entry)) :
    ∀ (j : ℕ) (st : DecState), st.status.isSome = true →
    (∀ p ∈ t, lookupS p.1 tbl = some p.2) →
    (∀ p ∈ t, ' ' ∉ p.1) →
    (∀ p ∈ t, ∀ v, p.2.value = some v → FloatLike v) →
    runLines lines0 tbl R P (List.enumFrom j (t.filterMap warmRowLine)) st =
      .ok { st with assigns := st.assigns ++ decodedWarmAssigns t R P } := by
  induction t with
  | nil =>
      intro j st hstat _ _ _
      simp [runLines, decodedWarmAssigns, List.enumFrom]
  | cons p t ih =>
      intro j st hstat hlk hsp hfl
      have hlkp := hlk p (List.mem_cons_self _ _)
      have hspp := hsp p (List.mem_cons_self _ _)
      have htl : ∀ p' ∈ t, lookupS p'.1 tbl = some p'.2 :=
        fun p' hp' => hlk p' (List.mem_cons_of_mem _ hp')
      have htsp : ∀ p' ∈ t, ' ' ∉ p'.1 :=
        fun p' hp' => hsp p' (List.mem_cons_of_mem _ hp')
      have htfl : ∀ p' ∈ t, ∀ v, p'.2.value = some v → FloatLike v :=
        fun p' hp' => hfl p' (List.mem_cons_of_mem _ hp')
      by_cases hv : p.2.isVar
      · have hrow : warmRowLine p =
            some (p.1 ++ ' ' :: ((match p.2.value with
              | none => str "0.0"
              | some v => pyStr v) ++ ['\n'])) := by
          simp [warmRowLine, hv]
        have htokns : ' ' ∉ (match p.2.value with
            | none => str "0.0"
            | some v => pyStr v) := by
          cases hval : p.2.value with
          | none => decide
          | some v => exact pyStr_no_space v
        have hparse : parseFloat ((match p.2.value with
            | none => str "0.0"
            | some v => pyStr v) ++ ['\n']) =
            some (p.2.value.getD 0) := by
          cases hval : p.2.value with
          | none => exact parseFloat_00_nl
          | some v =>
              exact parseFloat_pyStr_nl v (hfl p (List.mem_cons_self _ _) v hval)
        have hns : ¬ (st.status = none ∧ j ≤ 10) := by
          rintro ⟨hc, -⟩
          rw [hc] at hstat
          exact absurd hstat (by simp)
        have hstep : decodeStep lines0 tbl R P j
            (p.1 ++ ' ' :: ((match p.2.value with
              | none => str "0.0"
              | some v => pyStr v) ++ ['\n'])) st =
            .cont { st with assigns := st.assigns ++
              [(p.1, normalize_spec (p.2.value.getD 0) R P)] } := by
          rw [decodeStep, if_neg hns, procRow,
            if_neg (marker_not_infix_row _ _ hspp htokns)]
          simp [procSym, split1_space _ _ hspp, hlkp, hv, hparse,
            truncate_pyRound_eq_normalize]
        rw [List.filterMap_cons, hrow]
        simp only [List.enumFrom, runLines, hstep]
        rw [ih (j + 1) _ (by simpa using hstat) htl htsp htfl]
        simp [decodedWarmAssigns, List.filterMap_cons, hv]
      · have hrow : warmRowLine p = none := by simp [warmRowLine, hv]
        rw [List.filterMap_cons, hrow]
        rw [ih j st hstat htl htsp htfl]
        simp [decodedWarmAssigns, List.filterMap_cons, hv]

/-- Decoding the warm-start file's seven header lines yields the state
`⟨Unknown, Unknown, none, []⟩` — the placeholder `Objective Unknown` line is
swallowed leniently — after which the rows are processed. -/
lemma warmstart_header_run (tbl : SymTab) (R P : ℕ)
    (hkeysnl : ∀ k ∈ keysOf tbl, '\n' ∉ k)
    (hModel : lookupS (str "Model") tbl = none)
    (hObjective : lookupS (str "Objective") tbl = none)
    (hHash : lookupS (str "#") tbl = none) :
    read_values_from_sol (warmstartLines_spec tbl) tbl R P =
      runLines (warmstartLines_spec tbl) tbl R P
        (List.enumFrom 7 (tbl.filterMap warmRowLine))
        ⟨some (str "Unknown"), some (str "Unknown"), none, []⟩ := by
  have hs0 : decodeStep (warmstartLines_spec tbl) tbl R P 0
      (str "Model status\n") ⟨none, none, none, []⟩ =
      .cont ⟨some (str "Unknown"), none, none, []⟩ := by
    have h1 : (warmstartLines_spec tbl)[1]? = some (str "Unknown\n") := rfl
    have hrs : rstripNL (str "Unknown\n") = str "Unknown" := by decide
    have hsp : split1 (str "Model status\n") =
        [str "Model", str "status\n"] := by decide
    simp +decide [decodeStep, procRow, procSym, h1, hrs, hsp, hModel]
  have hs1 : decodeStep (warmstartLines_spec tbl) tbl R P 1 (str "Unknown\n")
      ⟨some (str "Unknown"), none, none, []⟩ =
      .cont ⟨some (str "Unknown"), none, none, []⟩ :=
    decodeStep_skip _ tbl R P 1 _ _ (str "Unknown\n") [] (by simp)
      (by decide) (by decide) (lookup_none_of_nl hkeysnl (by decide))
  have hs2 : decodeStep (warmstartLines_spec tbl) tbl R P 2 (str "\n")
      ⟨some (str "Unknown"), none, none, []⟩ =
      .cont ⟨some (str "Unknown"), none, none, []⟩ :=
    decodeStep_skip _ tbl R P 2 _ _ (str "\n") [] (by simp)
      (by decide) (by decide) (lookup_none_of_nl hkeysnl (by decide))
  have hs3 : decodeStep (warmstartLines_spec tbl) tbl R P 3
      (str "# Primal solution values\n")
      ⟨some (str "Unknown"), none, none, []⟩ =
      .cont ⟨some (str "Unknown"), some (str "Unknown"), none, []⟩ := by
    have h4 : (warmstartLines_spec tbl)[4]? = some (str "Unknown\n") := rfl
    have h5 : (warmstartLines_spec tbl)[5]? =
        some (str "Objective Unknown\n") := rfl
    have hr4 : rstripNL (str "Unknown\n") = str "Unknown" := by decide
    have hr5 : rstripNL (str "Objective Unknown\n") =
        str "Objective Unknown" := by decide
    have hsp5 : split1 (str "Objective Unknown") =
        [str "Objective", str "Unknown"] := by decide
    have hpU : parseFloat (str "Unknown") = none := by decide
    simp +decide [decodeStep, procRow, procMarker, h4, h5, hr4, hr5, hsp5,
      lastTok, hpU]
  have hs4 : decodeStep (warmstartLines_spec tbl) tbl R P 4 (str "Unknown\n")
      ⟨some (str "Unknown"), some (str "Unknown"), none, []⟩ =
      .cont ⟨some (str "Unknown"), some (str "Unknown"), none, []⟩ :=
    decodeStep_skip _ tbl R P 4 _ _ (str "Unknown\n") [] (by simp)
      (by decide) (by decide) (lookup_none_of_nl hkeysnl (by decide))
  have hs5 : decodeStep (warmstartLines_spec tbl) tbl R P 5
      (str "Objective Unknown\n")
      ⟨some (str "Unknown"), some (str "Unknown"), none, []⟩ =
      .cont ⟨some (str "Unknown"), some (str "Unknown"), none, []⟩ :=
    decodeStep_skip _ tbl R P 5 _ _ (str "Objective") [str "Unknown\n"]
      (by simp) (by decide)
      (by
        rw [show str "Objective Unknown\n" =
          str "Objective" ++ ' ' :: str "Unknown\n" by decide]
        exact split1_space _ _ (by decide))
      hObjective
  have hsp6 : split1 (str "# Columns " ++ natDigits (n_var tbl) ++ str "\n") =
      [str "#", str "Columns " ++ (natDigits (n_var tbl) ++ str "\n")] := by
    rw [show str "# Columns " ++ natDigits (n_var tbl) ++ str "\n" =
      str "#" ++ ' ' :: (str "Columns " ++ (natDigits (n_var tbl) ++
        str "\n")) by
      rw [show str "# Columns " = str "#" ++ ' ' :: str "Columns " by decide]
      simp]
    exact split1_space _ _ (by decide)
  have hm6 : ¬ (str "# Primal solution values" <:+:
      str "# Columns " ++ natDigits (n_var tbl) ++ str "\n") := by
    intro h
    have hc := h.sublist.count_le ' '
    have h3 : (str "# Primal solution values").count ' ' = 3 := by decide
    have h2 : (str "# Columns " ++ natDigits (n_var tbl) ++ str "\n").count
        ' ' = 2 := by
      rw [List.count_append, List.count_append,
        List.count_eq_zero.mpr (natDigits_no_nl_space _).2]
      decide
    rw [h3, h2] at hc
    omega
  have hs6 : decodeStep (warmstartLines_spec tbl) tbl R P 6
      (str "# Columns " ++ natDigits (n_var tbl) ++ str "\n")
      ⟨some (str "Unknown"), some (str "Unknown"), none, []⟩ =
      .cont ⟨some (str "Unknown"), some (str "Unknown"), none, []⟩ :=
    decodeStep_skip _ tbl R P 6 _ _ (str "#")
      [str "Columns " ++ (natDigits (n_var tbl) ++ str "\n")]
      (by simp) hm6 hsp6 hHash
  have henum : (warmstartLines_spec tbl).enum =
      (0, str "Model status\n") :: (1, str "Unknown\n") :: (2, str "\n") ::
      (3, str "# Primal solution values\n") :: (4, str "Unknown\n") ::
      (5, str "Objective Unknown\n") ::
      (6, str "# Columns " ++ natDigits (n_var tbl) ++ str "\n") ::
      List.enumFrom 7 (tbl.filterMap warmRowLine) := rfl
  rw [read_values_from_sol, henum]
  simp only [runLines, hs0, hs1, hs2, hs3, hs4, hs5, hs6]

/-- A symbol that can safely round-trip through the warm-start grammar: no
space or newline, and not one of the header words the decoder also splits. -/
def cleanSym (s : Str) : Prop :=
  ' ' ∉ s ∧ '\n' ∉ s ∧ s ≠ str "Model" ∧ s ≠ str "Objective" ∧ s ≠ str "#"

instance (s : Str) : Decidable (cleanSym s) :=
  inferInstanceAs (Decidable (_ ∧ _ ∧ _ ∧ _ ∧ _))

/-! ## Claim theorems -/

/-- **C6.** For every solution file and every symbol table, decoding never
attributes a value to a symbol absent from the caller's symbol table: a row
whose first token is not a key of the table is silently ignored, so the set
of symbols with assigned values — in any outcome, even an error — is a
subset of the table's keys. -/
theorem decode_assigns_subset_keys (lines : List Str) (tbl : SymTab)
    (R P : ℕ) (kv : Str × ℚ)
    (hkv : kv ∈ (outState (read_values_from_sol lines tbl R P)).assigns) :
    kv.1 ∈ keysOf tbl := by
  exact runLines_assigns_subset lines tbl R P lines.enum
    ⟨none, none, none, []⟩ (by simp) kv hkv

/-- Witness for C6: a concrete decode in which `x1` is assigned (so the
theorem's hypothesis is discharged at a real assignment), and its key is a
table key; the file also contains a row (`zz 7.0`) whose symbol is absent
from the table and is silently ignored. -/
theorem decode_assigns_subset_keys_witness :
    (str "x1", (3 : ℚ)) ∈ (outState (read_values_from_sol
        [str "Model status\n", str "Optimal\n", str "zz 7.0\n", str "x1 3\n"]
        [(str "x1", ⟨true, none⟩)] 8 8)).assigns ∧
    (str "x1") ∈ keysOf [(str "x1", ⟨true, none⟩)] := by
  have hpf : parseFloat ['3', '\n'] = some 3 := by
    norm_num +decide [parseFloat, parseUnsigned, stripWS, isWS,
      List.dropWhile, List.takeWhile, isDigitCh, valBE, valLE, charDigit]
  have htr : truncate (pyRound 3 (8 : ℤ)) 8 = some 3 := by
    have h1 : pyRound 3 (8 : ℤ) = 3 := by unfold pyRound; norm_num
    rw [h1]
    unfold truncate intLog10
    norm_num [nlogAux, pyRound]
  have heval : read_values_from_sol
      [str "Model status\n", str "Optimal\n", str "zz 7.0\n", str "x1 3\n"]
      [(str "x1", ⟨true, none⟩)] 8 8 =
      .ok ⟨some (str "Optimal"), none, none, [(str "x1", 3)]⟩ := by
    simp +decide [read_values_from_sol, List.enum, runLines, decodeStep,
      procRow, procSym, procMarker, split1, lookupS, rstripNL, str, hpf, htr,
      List.dropWhile, List.takeWhile]
  have hmem : (str "x1", (3 : ℚ)) ∈ (outState (read_values_from_sol
      [str "Model status\n", str "Optimal\n", str "zz 7.0\n", str "x1 3\n"]
      [(str "x1", ⟨true, none⟩)] 8 8)).assigns := by
    rw [heval]
    simp [outState]
  exact ⟨hmem, decode_assigns_subset_keys _ _ 8 8 _ hmem⟩

/-- **C3.** For every row `<S> <V-token>` of a solution file reached by the
decoding loop (status already captured, not the primal-marker line) whose
symbol `S` is a known decision variable and whose token parses to the
rational `V`, the value stored for `S` equals `normalize(V, R, P)` exactly as
§4.3 states it: round `V` to `R` decimal places, then
`base = floor(log10(|step1| + 10^-P))`, `digits = max(P - base, 1)`, and
round the step-1 result to `digits` decimal places.  `V` is universally
quantified, so the boundaries `V = 0`, `V < 0`, `|V| ≥ 1`, `|V| < 1` are all
covered (see the witness). -/
theorem decoded_value_eq_normalize (lines : List Str) (tbl : SymTab)
    (R P : ℕ) (j : ℕ) (st : DecState) (s t : Str) (V : ℚ) (e : Entry)
    (hstat : st.status.isSome)
    (hmark : ¬ (str "# Primal solution values" <:+: (s ++ ' ' :: t)))
    (hs : ' ' ∉ s) (hl : lookupS s tbl = some e) (hv : e.isVar = true)
    (hpf : parseFloat t = some V) :
    decodeStep lines tbl R P j (s ++ ' ' :: t) st =
      .cont { st with assigns := st.assigns ++ [(s, normalize_spec V R P)] } := by
  have hns : ¬ (st.status = none ∧ j ≤ 10) := by
    rintro ⟨h0, -⟩
    rw [h0] at hstat
    exact absurd hstat (by simp)
  rw [decodeStep, if_neg hns, procRow, if_neg hmark]
  simp [procSym, split1_space s t hs, hl, hv, hpf,
    truncate_pyRound_eq_normalize]

/-- Witness for C3, exercising the §4.3 boundaries: `V = 0` (row `x1 0.0`),
`V < 0` (row `x1 -2`), `|V| ≥ 1` (row `x1 3`), `0 < |V| < 1`
(row `x1 0.5`). -/
theorem decoded_value_eq_normalize_witness :
    (decodeStep [] [(str "x1", ⟨true, none⟩)] 8 8 3
        (str "x1" ++ ' ' :: str "0.0") ⟨some [], none, none, []⟩ =
      .cont ⟨some [], none, none, [(str "x1", normalize_spec 0 8 8)]⟩) ∧
    (decodeStep [] [(str "x1", ⟨true, none⟩)] 8 8 3
        (str "x1" ++ ' ' :: str "-2") ⟨some [], none, none, []⟩ =
      .cont ⟨some [], none, none, [(str "x1", normalize_spec (-2) 8 8)]⟩) ∧
    (decodeStep [] [(str "x1", ⟨true, none⟩)] 8 8 3
        (str "x1" ++ ' ' :: str "3") ⟨some [], none, none, []⟩ =
      .cont ⟨some [], none, none, [(str "x1", normalize_spec 3 8 8)]⟩) ∧
    (decodeStep [] [(str "x1", ⟨true, none⟩)] 8 8 3
        (str "x1" ++ ' ' :: str "0.5") ⟨some [], none, none, []⟩ =
      .cont ⟨some [], none, none,
        [(str "x1", normalize_spec (1 / 2) 8 8)]⟩) := by
  have hev : ∀ tok : Str, ∀ V : ℚ,
      ¬ (str "# Primal solution values" <:+: (str "x1" ++ ' ' :: tok)) →
      parseFloat tok = some V →
      decodeStep [] [(str "x1", ⟨true, none⟩)] 8 8 3
        (str "x1" ++ ' ' :: tok) ⟨some [], none, none, []⟩ =
      .cont ⟨some [], none, none, [(str "x1", normalize_spec V 8 8)]⟩ := by
    intro tok V hmark hpf
    exact decoded_value_eq_normalize [] [(str "x1", ⟨true, none⟩)] 8 8 3
      ⟨some [], none, none, []⟩ (str "x1") tok V ⟨true, none⟩ (by simp)
      hmark (by decide) (by decide) (by decide) hpf
  have hc0 : charDigit '0' = 0 := by decide
  have hc2 : charDigit '2' = 2 := by decide
  have hc3 : charDigit '3' = 3 := by decide
  have hc5 : charDigit '5' = 5 := by decide
  refine ⟨hev _ 0 (by decide) ?_, hev _ (-2) (by decide) ?_,
    hev _ 3 (by decide) ?_, hev _ (1 / 2) (by decide) ?_⟩ <;>
    norm_num +decide [parseFloat, parseUnsigned, stripWS, isWS, str,
      List.dropWhile, List.takeWhile, isDigitCh, valBE, valLE,
      hc0, hc2, hc3, hc5]

/-- **C2, counterexample.** The claim says decoding the file produced by
`_write_warmstartfile` reproduces every value *exactly*.  It does not: for
the table `{x1 ↦ 0.123456789}` the written row round-trips through
`round(·, 8)` and `truncate(·, 8)` and comes back as `0.12345679 ≠
0.123456789` (decode run with the default `rounding_digits = 8`,
`truncate_precision = 8`). -/
theorem warmstart_roundtrip_exact_fails :
    read_values_from_sol
        (splitLines (write_warmstartfile
          [(str "x1", ⟨true, some (123456789 / 1000000000)⟩)]))
        [(str "x1", ⟨true, some (123456789 / 1000000000)⟩)] 8 8 =
      .ok ⟨some (str "Unknown"), some (str "Unknown"), none,
        [(str "x1", 12345679 / 100000000)]⟩ ∧
    (12345679 / 100000000 : ℚ) ≠ 123456789 / 1000000000 := by
  have hnorm : normalize_spec (123456789 / 1000000000 : ℚ) 8 8 =
      12345679 / 100000000 := by
    have h1 : pyRound (123456789 / 1000000000 : ℚ) (((8 : ℕ)) : ℤ) =
        12345679 / 100000000 := by
      unfold pyRound
      norm_num
    have hc9 : (⌈(1250000 / 154321 : ℚ)⌉ : ℤ) = 9 := by
      rw [Int.ceil_eq_iff]
      constructor <;> norm_num
    have h2 : intLog10 ((12345679 / 100000000 : ℚ) + 10 ^ (-((8 : ℕ) : ℤ))) =
        -1 := by
      unfold intLog10
      norm_num [hc9]
      decide
    show pyRound (pyRound (123456789 / 1000000000 : ℚ) ((8 : ℕ) : ℤ))
        (max (((8 : ℕ) : ℤ) - intLog10 (|pyRound (123456789 / 1000000000 : ℚ)
          ((8 : ℕ) : ℤ)| + 10 ^ (-((8 : ℕ) : ℤ)))) 1) = 12345679 / 100000000
    rw [h1]
    rw [show |(12345679 / 100000000 : ℚ)| = 12345679 / 100000000 from
      abs_of_pos (by norm_num)]
    rw [h2]
    rw [show max (((8 : ℕ) : ℤ) - (-1)) 1 = 9 by norm_num]
    unfold pyRound
    norm_num
  have hfl0 : FloatLike (123456789 / 1000000000 : ℚ) := by
    have hden : (123456789 / 1000000000 : ℚ).den = 1000000000 := by norm_num
    unfold FloatLike
    rw [hden]
    decide
  constructor
  · rw [warmstart_splitLines _ (by decide)]
    rw [warmstart_header_run _ 8 8 (by decide) (by decide) (by decide)
      (by decide)]
    rw [warmRows_run _ _ 8 8 _ 7 _ (by simp)
      (lookupS_of_nodup (by decide)) (by decide) ?hfl]
    case hfl =>
      intro p hp v hv
      simp only [List.mem_singleton] at hp
      subst hp
      simp only at hv
      rcases Option.some.inj hv with rfl
      exact hfl0
    simp [decodedWarmAssigns, hnorm]
  · norm_num

/-- **C2, amended.** For every symbol table with duplicate-free, clean
symbols and float-representable values, decoding the output of
`_write_warmstartfile` succeeds and reproduces, for each decision-variable
symbol in table order, `normalize(v, R, P)` — the §4.3 normalisation of the
written value (`0` when unassigned) — rather than the value exactly;
reproduction is exact precisely for values the normalisation fixes.  The
placeholder header fields decode to status `Unknown`, primal-count line
`Unknown`, and no objective. -/
theorem warmstart_roundtrip_normalized (tbl : SymTab) (R P : ℕ)
    (hnd : (keysOf tbl).Nodup)
    (hclean : ∀ p ∈ tbl, cleanSym p.1)
    (hfl : ∀ p ∈ tbl, ∀ v, p.2.value = some v → FloatLike v) :
    read_values_from_sol (splitLines (write_warmstartfile tbl)) tbl R P =
      .ok ⟨some (str "Unknown"), some (str "Unknown"), none,
        decodedWarmAssigns tbl R P⟩ := by
  have hkeysnl : ∀ k ∈ keysOf tbl, '\n' ∉ k := by
    intro k hk
    rcases List.mem_map.mp hk with ⟨p, hp, rfl⟩
    exact (hclean p hp).2.1
  have hModel : lookupS (str "Model") tbl = none :=
    lookupS_eq_none_of_ne (fun p hp => (hclean p hp).2.2.1)
  have hObjective : lookupS (str "Objective") tbl = none :=
    lookupS_eq_none_of_ne (fun p hp => (hclean p hp).2.2.2.1)
  have hHash : lookupS (str "#") tbl = none :=
    lookupS_eq_none_of_ne (fun p hp => (hclean p hp).2.2.2.2)
  rw [warmstart_splitLines tbl (fun p hp => (hclean p hp).2.1)]
  rw [warmstart_header_run tbl R P hkeysnl hModel hObjective hHash]
  rw [warmRows_run _ tbl R P tbl 7 _ (by simp) (lookupS_of_nodup hnd)
    (fun p hp => (hclean p hp).1) hfl]
  simp

/-- Witness for the amended C2 at the table `{x1 ↦ 1/2}`. -/
theorem warmstart_roundtrip_normalized_witness :
    read_values_from_sol
        (splitLines (write_warmstartfile [(str "x1", ⟨true, some (1 / 2)⟩)]))
        [(str "x1", ⟨true, some (1 / 2)⟩)] 8 8 =
      .ok ⟨some (str "Unknown"), some (str "Unknown"), none,
        decodedWarmAssigns [(str "x1", ⟨true, some (1 / 2)⟩)] 8 8⟩ := by
  apply warmstart_roundtrip_normalized
  · decide
  · decide
  · intro p hp v hv
    simp only [List.mem_singleton] at hp
    subst hp
    simp only at hv
    rcases Option.some.inj hv with rfl
    have hden : ((1 : ℚ) / 2).den = 2 := by norm_num
    unfold FloatLike
    rw [hden]
    decide

/-- **C8.** For every symbol table (with newline-free symbols — anything else
cannot produce a line-per-row file at all), the warm-start encoder writes
exactly the fixed header lines `Model status`, `Unknown`, a blank line,
`# Primal solution values`, `Unknown`, `Objective Unknown`, and
`# Columns <N>` with `N` the number of decision-variable symbols, followed by
exactly one row per decision-variable symbol in table order: `<symbol> 0.0`
when the variable's value is unassigned, else `<symbol> <value>` with the raw
current value — no rounding or truncation is applied anywhere
(`warmstartLines_spec` serialises the value itself via `pyStr`). -/
theorem warmstart_writes_exact_grammar (tbl : SymTab)
    (hkeys : ∀ p ∈ tbl, '\n' ∉ p.1) :
    splitLines (write_warmstartfile tbl) = warmstartLines_spec tbl :=
  warmstart_splitLines tbl hkeys

/-- Witness for C8 at a concrete table with an assigned decision variable, an
unassigned one, and a non-variable entity (which gets no row). -/
theorem warmstart_writes_exact_grammar_witness :
    splitLines (write_warmstartfile
        [(str "x1", ⟨true, some (1 / 2)⟩), (str "c0", ⟨false, none⟩),
          (str "x2", ⟨true, none⟩)]) =
      warmstartLines_spec
        [(str "x1", ⟨true, some (1 / 2)⟩), (str "c0", ⟨false, none⟩),
          (str "x2", ⟨true, none⟩)] :=
  warmstart_writes_exact_grammar
    [(str "x1", ⟨true, some (1 / 2)⟩), (str "c0", ⟨false, none⟩),
      (str "x2", ⟨true, none⟩)] (by decide)

/-- **C5.** For every solution file of the `objFile` family whose objective
line's value token is not parseable as a float, the decoder raises no
exception from the objective parse: the run is *identical* to the run on the
same file with a parseable objective token — same errors if any, same status,
same primal line, same decoded row values — except that the objective field
is left unset (`none`).  (The table is assumed not to track the header words
`Model` and `Objective` as symbols and to have newline-free keys; the rows
must not contain the section marker, which would start a new section in both
files alike.) -/
theorem objective_parse_lenient (objTok : Str) (rows : List Str)
    (tbl : SymTab) (R P : ℕ)
    (hnl : '\n' ∉ objTok) (hhash : '#' ∉ objTok)
    (hobj : parseFloat objTok = none)
    (hkeysnl : ∀ k ∈ keysOf tbl, '\n' ∉ k)
    (hModel : lookupS (str "Model") tbl = none)
    (hObjective : lookupS (str "Objective") tbl = none)
    (hrows : ∀ r ∈ rows, ¬ (str "# Primal solution values" <:+: r)) :
    read_values_from_sol (objFile objTok rows) tbl R P =
      setObjNone (read_values_from_sol (objFile (str "42.0") rows) tbl R P) := by
  rw [objFile_run objTok rows tbl R P hnl hhash hkeysnl hModel hObjective,
    objFile_run (str "42.0") rows tbl R P (by decide) (by decide) hkeysnl
      hModel hObjective, hobj]
  rw [show (⟨some (str "Optimal"), some (str "1"), none, []⟩ : DecState) =
    eraseObj ⟨some (str "Optimal"), some (str "1"),
      parseFloat (str "42.0"), []⟩ from rfl]
  exact runLines_noMarker_eraseObj _ _ tbl R P _ _
    (fun p hp => hrows p.2 (snd_mem_enumFrom hp)) (by simp)

/-- Witness for C5 at a concrete file: objective token `Unknown` (not
parseable), one decision-variable row `x1 1`. -/
theorem objective_parse_lenient_witness :
    read_values_from_sol (objFile (str "Unknown") [str "x1 1\n"])
        [(str "x1", ⟨true, none⟩)] 8 8 =
      setObjNone (read_values_from_sol (objFile (str "42.0") [str "x1 1\n"])
        [(str "x1", ⟨true, none⟩)] 8 8) :=
  objective_parse_lenient (str "Unknown") [str "x1 1\n"]
    [(str "x1", ⟨true, none⟩)] 8 8 (by decide) (by decide) (by decide)
    (by decide) (by decide) (by decide) (by decide)

/-- **C1 (code bug).** The claim says a known decision-variable row with no
value token raises `SystemError(SOL_ERROR_MSG)`.  The code cannot do that:
the guard is `len(splt) > 0` (always true, `split` never returns an empty
list) instead of `len(splt) > 1`, so the `raise SystemError(SOL_ERROR_MSG)`
statement is unreachable — first conjunct: no input whatsoever produces the
`SystemError` outcome.  What actually happens on a valueless row for the
known decision variable `x1`: with no trailing newline (`"x1"`), `splt[1]`
raises `IndexError` (second conjunct); with a trailing newline (`"x1\n"`),
the token is `"x1\n"`, which is not a table key, so the row is *silently
dropped* and decoding succeeds with no assignment (third conjunct) — exactly
the two behaviours the claim rules out. -/
theorem valueless_row_systemError_unreachable :
    (∀ (lines : List Str) (tbl : SymTab) (R P : ℕ) (m : Str)
        (st : DecState),
      read_values_from_sol lines tbl R P ≠ .err (.systemError m) st) ∧
    read_values_from_sol [str "Model status\n", str "Optimal\n", str "x1"]
        [(str "x1", ⟨true, none⟩)] 8 8 =
      .err .indexError ⟨some (str "Optimal"), none, none, []⟩ ∧
    read_values_from_sol [str "Model status\n", str "Optimal\n", str "x1\n"]
        [(str "x1", ⟨true, none⟩)] 8 8 =
      .ok ⟨some (str "Optimal"), none, none, []⟩ := by
  refine ⟨?_, by decide, by decide⟩
  intro lines tbl R P m st
  exact runLines_ne_systemError lines tbl R P lines.enum
    ⟨none, none, none, []⟩ m st

/-- **C9.** For every non-empty solution file whose first line does not
contain the substring `"Model status"`, `_read_values_from_sol` does not
terminate: the inner `while` loop's condition (`status is None and j <= 10`)
never changes once entered with a non-matching line, so decode hangs (the
`hang` outcome) instead of returning or raising. -/
theorem decode_hangs_without_status_marker (content : Str) (tbl : SymTab)
    (R P : ℕ) (hne : content ≠ [])
    (hnomark : ¬ (str "Model status" <:+: (splitLines content).headD [])) :
    read_values_from_sol (splitLines content) tbl R P =
      .hang ⟨none, none, none, []⟩ := by
  cases hl : splitLines content with
  | nil => exact absurd hl (splitLines_ne_nil hne)
  | cons l rest =>
      rw [hl] at hnomark
      simp only [List.headD_cons] at hnomark
      simp [read_values_from_sol, List.enum, runLines, decodeStep, hnomark]

/-- Witness for C9 at a concrete file: content `"Optimal\n"`. -/
theorem decode_hangs_without_status_marker_witness :
    read_values_from_sol (splitLines (str "Optimal\n")) [] 8 8 =
      .hang ⟨none, none, none, []⟩ :=
  decode_hangs_without_status_marker (str "Optimal\n") [] 8 8
    (by decide) (by decide)

/-- **C4.** For every file content, `_check_complete_sol` reports ready if
and only if the content contains the structural marker `"# Basis\nHiGHS"`
and ends with a trailing `"\n"`; in particular, for a file written in two
sequential appends where the first append does not yet satisfy the predicate
and the second completes it, the check reports not ready after append 1 and
ready after append 2. -/
theorem check_complete_sol_iff :
    (∀ txt : Str, check_complete_sol txt = true ↔
      (str "# Basis\nHiGHS" <:+: txt ∧ ['\n'] <:+ txt)) ∧
    (∀ s1 s2 : Str,
      ¬ (str "# Basis\nHiGHS" <:+: s1 ∧ ['\n'] <:+ s1) →
      (str "# Basis\nHiGHS" <:+: (s1 ++ s2) ∧ ['\n'] <:+ (s1 ++ s2)) →
      check_complete_sol s1 = false ∧ check_complete_sol (s1 ++ s2) = true) := by
  have hiff : ∀ txt : Str, check_complete_sol txt = true ↔
      (str "# Basis\nHiGHS" <:+: txt ∧ ['\n'] <:+ txt) := by
    intro txt
    simp [check_complete_sol]
  refine ⟨hiff, ?_⟩
  intro s1 s2 h1 h2
  constructor
  · rcases hb : check_complete_sol s1 with _ | _
    · rfl
    · exact absurd ((hiff s1).mp hb) h1
  · exact (hiff (s1 ++ s2)).mpr h2

/-- Witness for C4: append 1 writes `"x 1\n# Basis"` (no complete marker, no
final check), append 2 adds `"\nHiGHS v1\n"`; the check is false after the
first append and true after the second. -/
theorem check_complete_sol_iff_witness :
    check_complete_sol (str "x 1\n# Basis") = false ∧
      check_complete_sol (str "x 1\n# Basis" ++ str "\nHiGHS v1\n") = true :=
  check_complete_sol_iff.2 (str "x 1\n# Basis") (str "\nHiGHS v1\n")
    (by decide) (by decide)

/-- **C10.** For every falsy `time_limit` value — `None`, the number `0`, the
empty string — the assembled command line contains no `--time_limit` flag:
the fragment produced by `_cmd_timelim` is empty, and the command line equals
the one assembled with no time limit at all; the flag is emitted exactly when
`time_limit` is truthy. -/
theorem cmd_no_time_limit_when_falsy (tl : TimeLimit) (exe solfile rsf
    optionsfile modelfile : Str) (h : tlTruthy tl = false) :
    cmd_timelim tl = [] ∧
      cmdLine exe tl solfile rsf optionsfile modelfile =
        cmdLine exe TimeLimit.none solfile rsf optionsfile modelfile ∧
      ∀ tl' : TimeLimit, (cmd_timelim tl' = [] ↔ tlTruthy tl' = false) := by
  have hnone : cmd_timelim TimeLimit.none = [] := rfl
  have htl : cmd_timelim tl = [] := by simp [cmd_timelim, h]
  refine ⟨htl, by simp [cmdLine, htl, hnone], ?_⟩
  intro tl'
  constructor
  · intro he
    by_contra hb
    simp only [Bool.not_eq_false] at hb
    unfold cmd_timelim at he
    rw [if_pos hb] at he
    exact absurd (List.append_eq_nil.mp he).1 (by decide)
  · intro hf
    simp [cmd_timelim, hf]

/-- Witness for C10: a time limit of exactly `0` yields a command line with
no `--time_limit` fragment. -/
theorem cmd_no_time_limit_when_falsy_witness :
    cmd_timelim (TimeLimit.num 0) = [] ∧
      cmdLine (str "highs") (TimeLimit.num 0) (str "s.sol") [] (str "o.opt")
          (str "m.mps") =
        cmdLine (str "highs") TimeLimit.none (str "s.sol") [] (str "o.opt")
          (str "m.mps") ∧
      ∀ tl' : TimeLimit, (cmd_timelim tl' = [] ↔ tlTruthy tl' = false) :=
  cmd_no_time_limit_when_falsy (TimeLimit.num 0) (str "highs") (str "s.sol")
    [] (str "o.opt") (str "m.mps") (by simp [tlTruthy])

/-- **C7.** For every rational input `x` — including `x = 0` and every
negative `x` — and every positive precision `P`, `truncate x P` returns a
value (it never models a raise): the `10^-P` offset keeps the argument of the
logarithm strictly positive. -/
theorem truncate_total (x : ℚ) (P : ℕ) (_hP : 0 < P) :
    (truncate x P).isSome = true ∧ 0 < |x| + (10 : ℚ) ^ (-(P : ℤ)) := by
  have hpos : 0 < |x| + (10 : ℚ) ^ (-(P : ℤ)) := by positivity
  refine ⟨?_, hpos⟩
  unfold truncate
  show (if 0 < |x| + (10 : ℚ) ^ (-(P : ℤ)) then
    some (pyRound x (max ((P : ℤ) - intLog10 (|x| + 10 ^ (-(P : ℤ)))) 1))
    else none).isSome = true
  rw [if_pos hpos]
  rfl

/-- Witness for C7 at `x = -3/2`, `P = 3` (and, via the theorem's
universality, the zero boundary is also exercised at `x = 0`). -/
theorem truncate_total_witness :
    ((truncate (-3 / 2 : ℚ) 3).isSome = true ∧
      0 < |(-3 / 2 : ℚ)| + (10 : ℚ) ^ (-((3 : ℕ) : ℤ))) ∧
    ((truncate 0 3).isSome = true ∧
      0 < |(0 : ℚ)| + (10 : ℚ) ^ (-((3 : ℕ) : ℤ))) :=
  ⟨truncate_total (-3 / 2 : ℚ) 3 (by norm_num),
    truncate_total 0 3 (by norm_num)⟩

end GetHighs
